import Mathlib

/-!
Shallow embedding of the `charting_tools` route-planning core
(`src/charted_paths.rs`, `src/charted_coordinate.rs`) and proofs about it.

Machine integers are modelled as `Nat`/`Int` with explicit reductions
modulo `2^32` (`u32`/`i32`) and `2^64` (`usize`), matching Rust release-mode
two's-complement wrapping semantics; `as` casts are modelled by the
corresponding modular reinterpretations.  Fallible code (`unwrap`,
out-of-bounds indexing) is modelled with `Except Unit`, where `.error ()`
stands for a panic.

External `robotics_lib` items are modelled as follows:
* `TileType` and its `walk` property follow the `robotics_lib` tile table
  (`DeepWater`, `Lava`, `Wall` unwalkable, everything else walkable).
* the composite `calculate_cost_go_with_environment(base_cost, look_at_sky
  world, tile_type)` is an opaque pure function of the tile type for a fixed
  world snapshot, passed around as a parameter `env : TileType → Nat`
  (its `usize` result is reduced mod `2^32` at the `as u32` cast site).
-/

namespace ChartingTools

/-- Terrain classification, from `robotics_lib::world::tile::TileType`. -/
inductive TileType where
  | DeepWater
  | ShallowWater
  | Sand
  | Grass
  | Street
  | Hill
  | Mountain
  | Snow
  | Lava
  | Teleport (active : Bool)
  | Wall
  deriving DecidableEq, Repr

/-- `TileType::properties().walk()` from `robotics_lib`: deep water, lava and
walls cannot be walked on, every other terrain can. -/
def TileType.walk : TileType → Bool
  | .DeepWater => false
  | .Lava => false
  | .Wall => false
  | _ => true

/-- A discovered tile: terrain type and elevation (`usize` in the source;
the `content` field is never consulted by the route engine). -/
structure Tile where
  tile_type : TileType
  elevation : Nat
  deriving DecidableEq, Repr

/-- `ChartedCoordinate(pub usize, pub usize)`; field `r` is `.0` (row),
field `c` is `.1` (column). -/
structure ChartedCoordinate where
  r : Nat
  c : Nat
  deriving DecidableEq, Repr

/-- The robot map: a matrix of optional tiles (`Vec<Vec<Option<Tile>>>`). -/
abbrev RMap := List (List (Option Tile))

/-- The environment-adjusted base movement cost: models the composite of
`look_at_sky(world)` and `calculate_cost_go_with_environment` for one fixed
world snapshot, as a pure function of the terrain type. -/
abbrev Env := TileType → Nat

/-- `robotics_lib::interface::Direction`. -/
inductive Direction where
  | Up
  | Down
  | Left
  | Right
  deriving DecidableEq, Repr

/-! ### 32-bit two's-complement arithmetic -/

/-- The signed 32-bit value represented by `z` modulo `2^32`: the result of
any wrapping `i32` operation whose exact integer value is `z`, and also the
`as i32` reinterpretation of an unsigned integer `z`. -/
def wrap32 (z : Int) : Int :=
  if z % 4294967296 < 2147483648 then z % 4294967296
  else z % 4294967296 - 4294967296

theorem wrap32_congr {z w : Int} (h : z % 4294967296 = w % 4294967296) :
    wrap32 z = wrap32 w := by
  unfold wrap32; rw [h]

theorem wrap32_emod (z : Int) : wrap32 z % 4294967296 = z % 4294967296 := by
  unfold wrap32
  split <;> omega

theorem wrap32_of_small {z : Int} (h1 : -2147483648 ≤ z) (h2 : z < 2147483648) :
    wrap32 z = z := by
  unfold wrap32
  split <;> omega

/-- The `usize` value of an exact integer `z` after 64-bit wrapping. -/
def wrap64u (z : Int) : Nat := (z % 18446744073709551616).toNat

/-- The `u32` value obtained by an `as u32` cast of a (possibly negative)
machine integer value. -/
def toU32 (z : Int) : Nat := (z % 4294967296).toNat

/-! ### `ChartedCoordinate` operations (`charted_coordinate.rs`) -/

/-- `ChartedCoordinate::distance_to`: `(who.0 as i32 - to.0 as i32,
who.1 as i32 - to.1 as i32)` with wrapping `i32` subtraction. -/
def ChartedCoordinate.distance_to (who tgt : ChartedCoordinate) : Int × Int :=
  (wrap32 (wrap32 who.r - wrap32 tgt.r), wrap32 (wrap32 who.c - wrap32 tgt.c))

/-- `ChartedCoordinate::is_close_to`: true iff
`distance_to(..).0.pow(2) + distance_to(..).1.pow(2) < 2`, computed in
wrapping `i32` arithmetic (the source calls `distance_to` twice). -/
def ChartedCoordinate.is_close_to (who tgt : ChartedCoordinate) : Bool :=
  wrap32 (wrap32 ((ChartedCoordinate.distance_to who tgt).1 *
                  (ChartedCoordinate.distance_to who tgt).1) +
          wrap32 ((ChartedCoordinate.distance_to who tgt).2 *
                  (ChartedCoordinate.distance_to who tgt).2)) < 2

/-! ### Direction translation (`ChartedPaths::coordinates_to_direction`) -/

/-- `ChartedPaths::coordinates_to_direction`, returning
`Result<Direction, ()>`; `.error ()` models `Err(())`. -/
def coordinates_to_direction (f t : ChartedCoordinate) : Except Unit Direction :=
  if f.c > t.c then .ok .Left
  else if f.c < t.c then .ok .Right
  else if f.r > t.r then .ok .Up
  else if f.r < t.r then .ok .Down
  else .error ()

/-! ### Cost model (`ChartedPaths::eval_weight`) -/

/-- Cell lookup `map[i][j]` flattened with the discovery option.  All uses in
this development are at in-range indices (where the source cannot panic); an
out-of-range index yields `none`, merged with the "undiscovered" case. -/
def getCell (m : RMap) (i j : Nat) : Option Tile :=
  match m.get? i with
  | none => none
  | some row => (row.get? j).join

/-- The elevation penalty computed by `eval_weight` when
`tile_from.elevation < tile_to.elevation`:
`((tile_from.elevation - tile_to.elevation) as i32).pow(2) as u32` —
a wrapping `usize` subtraction (which underflows, since `from < to`),
truncated to `i32`, squared with `i32` wrapping, then cast to `u32`. -/
def elevationCost (efrom eto : Nat) : Nat :=
  toU32 (wrap32 (wrap32 (((efrom : Int) - (eto : Int)) % 18446744073709551616) *
                 wrap32 (((efrom : Int) - (eto : Int)) % 18446744073709551616)))

/-- `ChartedPaths::eval_weight`.  `4294967295` is the `u32::MAX` sentinel;
`env tile_from.tile_type % 4294967296` is the source's `base_cost` (the `as
u32` cast of the adjusted cost), written inline. -/
def eval_weight (f t : ChartedCoordinate) (m : RMap) (env : Env) : Nat :=
  if ChartedCoordinate.is_close_to f t then
    match getCell m f.r f.c, getCell m t.r t.c with
    | some tile_from, some tile_to =>
      if tile_from.elevation < tile_to.elevation then
        (env tile_from.tile_type % 4294967296 +
         elevationCost tile_from.elevation tile_to.elevation) % 4294967296
      else env tile_from.tile_type % 4294967296
    | _, _ => 4294967295
  else 4294967295

/-! ### The graph (`petgraph::graph::UnGraph<ChartedCoordinate, u32>`)

Node identifiers (`NodeIndex`) are positions in the `nodes` list; edge
identifiers (`EdgeIndex`) are positions in the `edges` list; `add_node` and
`add_edge` append.  An edge `(a, b, w)` is undirected. -/

structure PGraph where
  nodes : List ChartedCoordinate
  edges : List (Nat × Nat × Nat)
  deriving DecidableEq, Repr

def PGraph.empty : PGraph := ⟨[], []⟩

/-- The `ChartedPaths` structure. `teleports_edges` models the key set of the
`HashMap<EdgeIndex, bool>` (every inserted value is `true`). -/
structure ChartedPaths where
  graph : PGraph
  indexes : List (List (Option Nat))
  teleports_edges : List Nat
  deriving DecidableEq, Repr

/-- `ChartingTool::new` for `ChartedPaths`. -/
def ChartedPaths.new : ChartedPaths := ⟨PGraph.empty, [], []⟩

/-! ### `ChartedPaths::adds_nodes` -/

/-- One row of the `adds_nodes` scan: processes columns `js` of row `i`,
threading the graph, the teleport worklist and the row being built. -/
def addRowAux (m : RMap) (i : Nat) (js : List Nat) (g : PGraph)
    (tps : List ChartedCoordinate) (row : List (Option Nat)) :
    PGraph × List ChartedCoordinate × List (Option Nat) :=
  match js with
  | [] => (g, tps, row)
  | j :: rest =>
    match getCell m i j with
    | none => addRowAux m i rest g tps (row ++ [none])
    | some present_tile =>
      if present_tile.tile_type.walk = false then
        addRowAux m i rest g tps (row ++ [none])
      else
        let current_node := g.nodes.length
        let g2 : PGraph := { g with nodes := g.nodes ++ [⟨i, j⟩] }
        let tps2 := if present_tile.tile_type = TileType.Teleport true
                    then tps ++ [ChartedCoordinate.mk i j] else tps
        addRowAux m i rest g2 tps2 (row ++ [some current_node])

/-- The outer row loop of `adds_nodes` over the row indices `is`; each
finished row is pushed onto the (pre-existing, never cleared) `indexes`. -/
def addsNodesAux (m : RMap) (dim : Nat) (is : List Nat)
    (indexes : List (List (Option Nat))) (g : PGraph)
    (tps : List ChartedCoordinate) :
    List (List (Option Nat)) × PGraph × List ChartedCoordinate :=
  match is with
  | [] => (indexes, g, tps)
  | i :: rest =>
    let r := addRowAux m i (List.range dim) g tps []
    addsNodesAux m dim rest (indexes ++ [r.2.2]) r.1 r.2.1

/-- `ChartedPaths::adds_nodes`. -/
def adds_nodes (m : RMap) (dim : Nat) (indexes : List (List (Option Nat)))
    (g : PGraph) (tps : List ChartedCoordinate) :
    List (List (Option Nat)) × PGraph × List ChartedCoordinate :=
  addsNodesAux m dim (List.range dim) indexes g tps

/-! ### `ChartedPaths::init` -/

/-- `indexes[i][j]` as an option of the stored entry (`none` = index out of
range, which would panic in the source; every use below is in range). -/
def idxGet (indexes : List (List (Option Nat))) (i j : Nat) :
    Option (Option Nat) :=
  match indexes.get? i with
  | none => none
  | some row => row.get? j

/-- The adjacency edges contributed by cell `(i, j)` of `init`'s vertex loop,
in source order: the right neighbor first, then the neighbor below. -/
def cellEdges (m : RMap) (env : Env) (dim : Nat)
    (indexes : List (List (Option Nat))) (i j : Nat) : List (Nat × Nat × Nat) :=
  match idxGet indexes i j with
  | some (some present_tile) =>
    (if j = dim - 1 then []
     else match idxGet indexes i (j + 1) with
       | some (some next_tile) =>
         [(present_tile, next_tile, eval_weight ⟨i, j⟩ ⟨i, j + 1⟩ m env)]
       | _ => []) ++
    (if i = dim - 1 then []
     else match idxGet indexes (i + 1) j with
       | some (some next_tile) =>
         [(present_tile, next_tile, eval_weight ⟨i, j⟩ ⟨i + 1, j⟩ m env)]
       | _ => [])
  | _ => []

/-- All adjacency edges of `init`, in the row-major scan order. -/
def adjEdges (m : RMap) (env : Env) (dim : Nat)
    (indexes : List (List (Option Nat))) : List (Nat × Nat × Nat) :=
  (List.range dim).flatMap fun i =>
    (List.range dim).flatMap fun j => cellEdges m env dim indexes i j

/-- `self.indexes[c.r][c.c].unwrap()`: at every `init` call site the entry is
present (teleport cells always received a node), so the panic default is
unreachable there. -/
def unwrapIdx (indexes : List (List (Option Nat))) (c : ChartedCoordinate) :
    Nat :=
  ((idxGet indexes c.r c.c).join).getD 0

/-- The teleport-mesh edges of `init`: for each `index`, an edge of weight 30
from `teleports[index]` to each `teleports[i+1]` with `i ∈ [index, len-1)`. -/
def teleportEdges (tps : List ChartedCoordinate)
    (indexes : List (List (Option Nat))) : List (Nat × Nat × Nat) :=
  (List.range tps.length).flatMap fun index =>
    (List.range' index (tps.length - 1 - index)).map fun i =>
      (unwrapIdx indexes (tps.getD index ⟨0, 0⟩),
       unwrapIdx indexes (tps.getD (i + 1) ⟨0, 0⟩), 30)

/-- `ChartedPaths::init`: resets the graph, runs `adds_nodes` (which appends
to the existing `indexes` — the source never clears it), adds the adjacency
edges and the teleport mesh.  New teleport edge ids are appended to the
`teleports_edges` key set (the source inserts into the uncleaned map). -/
def init (cp : ChartedPaths) (m : RMap) (env : Env) : ChartedPaths :=
  let dimension := m.length
  let r := adds_nodes m dimension cp.indexes PGraph.empty []
  let indexes := r.1
  let g := r.2.1
  let teleports := r.2.2
  let adj := adjEdges m env dimension indexes
  let tele := teleportEdges teleports indexes
  { graph := { nodes := g.nodes, edges := (g.edges ++ adj) ++ tele },
    indexes := indexes,
    teleports_edges :=
      cp.teleports_edges ++ List.range' (g.edges ++ adj).length tele.length }

/-! ### Query helpers -/

/-- `ChartedPaths::check_boundaries`. -/
def check_boundaries (cp : ChartedPaths) (f t : ChartedCoordinate) : Bool :=
  if f.r ≥ cp.indexes.length ∨ f.c ≥ cp.indexes.length ∨
     t.r ≥ cp.indexes.length ∨ t.c ≥ cp.indexes.length then false
  else true

/-- `indexes[i][j]` where an out-of-range index is a panic (`.error ()`). -/
def idxGetE (indexes : List (List (Option Nat))) (i j : Nat) :
    Except Unit (Option Nat) :=
  match indexes.get? i with
  | none => .error ()
  | some row =>
    match row.get? j with
    | none => .error ()
    | some v => .ok v

/-- `Option::unwrap`: panics (`.error ()`) on `None`. -/
def unwrapE {α : Type} (o : Option α) : Except Unit α :=
  match o with
  | none => .error ()
  | some v => .ok v

/-- The neighbors (other endpoint, edge weight) of node `n`, from
`petgraph`'s incident-edge iteration of the undirected graph.  The iteration
order only influences heap tie-breaking, which `petgraph`'s `BinaryHeap`
leaves unspecified anyway; all concrete evaluations below are tie-free. -/
def neighbors (g : PGraph) (n : Nat) : List (Nat × Nat) :=
  g.edges.flatMap fun e =>
    if e.1 = n then [(e.2.1, e.2.2)]
    else if e.2.1 = n then [(e.1, e.2.2)]
    else []

/-- Association-list lookup for score/predecessor maps keyed by node id. -/
def lookupScore (sc : List (Nat × Nat)) (n : Nat) : Option Nat :=
  match sc with
  | [] => none
  | p :: rest => if p.1 = n then some p.2 else lookupScore rest n

/-- Association-list insert-or-update. -/
def setScore (sc : List (Nat × Nat)) (n v : Nat) : List (Nat × Nat) :=
  match sc with
  | [] => [(n, v)]
  | p :: rest => if p.1 = n then (n, v) :: rest else p :: setScore rest n v

/-- Min-priority queue as a list sorted by (score, node id): models
`BinaryHeap<MinScored>` pops; ties (which `BinaryHeap` resolves in an
unspecified order) are broken by node id. -/
def heapPush (h : List (Nat × Nat)) (x : Nat × Nat) : List (Nat × Nat) :=
  match h with
  | [] => [x]
  | y :: rest =>
    if x.1 < y.1 then x :: y :: rest
    else if x.1 = y.1 ∧ x.2 ≤ y.2 then x :: y :: rest
    else y :: heapPush rest x

/-! ### `petgraph::algo::dijkstra` with an optional goal (early break) -/

/-- The relaxation of `node`'s out-edges in `petgraph`'s dijkstra loop:
skips visited targets, improves scores, pushes improved targets. -/
def dijkstraRelax (vis : List Nat) (d : Nat) (nbrs : List (Nat × Nat))
    (sc : List (Nat × Nat)) (h : List (Nat × Nat)) :
    List (Nat × Nat) × List (Nat × Nat) :=
  match nbrs with
  | [] => (sc, h)
  | (next, w) :: rest =>
    if vis.contains next then dijkstraRelax vis d rest sc h
    else
      let next_score := d + w
      match lookupScore sc next with
      | some old =>
        if next_score < old then
          dijkstraRelax vis d rest (setScore sc next next_score)
            (heapPush h (next_score, next))
        else dijkstraRelax vis d rest sc h
      | none =>
        dijkstraRelax vis d rest (setScore sc next next_score)
          (heapPush h (next_score, next))

/-- `petgraph`'s dijkstra main loop: pop the minimum, skip if visited, break
(returning the score map as-is) when the goal is popped, otherwise relax and
mark visited.  `fuel` dominates the number of heap pops. -/
def dijkstraLoop (g : PGraph) (goal : Option Nat) :
    Nat → List (Nat × Nat) → List (Nat × Nat) → List Nat → List (Nat × Nat)
  | 0, _, sc, _ => sc
  | _ + 1, [], sc, _ => sc
  | fuel + 1, (d, n) :: hs, sc, vis =>
    if vis.contains n then dijkstraLoop g goal fuel hs sc vis
    else if goal = some n then sc
    else
      let r := dijkstraRelax vis d (neighbors g n) sc hs
      dijkstraLoop g goal fuel r.2 r.1 (n :: vis)

/-- `petgraph::algo::dijkstra(graph, start, goal, |e| *e.weight())`:
returns the (possibly partial, on early break) score map. -/
def dijkstra (g : PGraph) (start : Nat) (goal : Option Nat) :
    List (Nat × Nat) :=
  dijkstraLoop g goal (g.nodes.length + 2 * g.edges.length + 2)
    [(0, start)] [(start, 0)] []

/-! ### `petgraph::algo::astar` with the zero heuristic -/

/-- `PathTracker::reconstruct_path_to`: follow predecessors from the goal,
then reverse. -/
def reconstructAux (came : List (Nat × Nat)) : Nat → Nat → List Nat
  | 0, n => [n]
  | fuel + 1, n =>
    match lookupScore came n with
    | none => [n]
    | some prev => n :: reconstructAux came fuel prev

def reconstructPath (came : List (Nat × Nat)) (fuel n : Nat) : List Nat :=
  (reconstructAux came fuel n).reverse

/-- The relaxation step of `petgraph`'s astar loop: improve g-scores, record
predecessors, push with estimate = g-score (zero heuristic). -/
def astarRelax (d node : Nat) (nbrs : List (Nat × Nat))
    (sc came h : List (Nat × Nat)) :
    List (Nat × Nat) × List (Nat × Nat) × List (Nat × Nat) :=
  match nbrs with
  | [] => (sc, came, h)
  | (next, w) :: rest =>
    let next_score := d + w
    match lookupScore sc next with
    | some old =>
      if next_score < old then
        astarRelax d node rest (setScore sc next next_score)
          (setScore came next node) (heapPush h (next_score, next))
      else astarRelax d node rest sc came h
    | none =>
      astarRelax d node rest (setScore sc next next_score)
        (setScore came next node) (heapPush h (next_score, next))

/-- `petgraph`'s astar main loop: pop the minimum estimate; if it is the
goal, return its g-score and the reconstructed path; skip if an estimate no
worse was already expanded; otherwise record the estimate, relax, continue. -/
def astarLoop (g : PGraph) (goal : Nat) :
    Nat → List (Nat × Nat) → List (Nat × Nat) → List (Nat × Nat) →
    List (Nat × Nat) → Option (Nat × List Nat)
  | 0, _, _, _, _ => none
  | _ + 1, [], _, _, _ => none
  | fuel + 1, (e, n) :: hs, sc, est, came =>
    if n = goal then
      some ((lookupScore sc n).getD 0, reconstructPath came g.nodes.length n)
    else
      let skip := match lookupScore est n with
                  | some r => decide (r ≤ e)
                  | none => false
      if skip then astarLoop g goal fuel hs sc est came
      else
        let est2 := setScore est n e
        let d := (lookupScore sc n).getD 0
        let rr := astarRelax d n (neighbors g n) sc came hs
        astarLoop g goal fuel rr.2.2 rr.1 est2 rr.2.1

/-- `petgraph::algo::astar(graph, start, |f| f == goal, |e| *e.weight(),
|_| 0)`. -/
def astar (g : PGraph) (start goal : Nat) : Option (Nat × List Nat) :=
  astarLoop g goal (2 * (g.nodes.length + 2 * g.edges.length + 2))
    [(0, start)] [(start, 0)] [] []

/-! ### The public queries -/

/-- `ChartedPaths::shortest_path_cost`.  Mirrors the source exactly: after a
bounds check it unwraps `from`'s entry, runs dijkstra towards `to`'s entry,
then reads the accumulated distance at the hard-coded coordinate `(0, 4)` —
`result.get(&self.indexes[0][4].unwrap())`. -/
def shortest_path_cost (cp : ChartedPaths) (f t : ChartedCoordinate) :
    Except Unit (Option Nat) :=
  if check_boundaries cp f t = false then .ok none
  else do
    let s ← unwrapE (← idxGetE cp.indexes f.r f.c)
    let goalo ← idxGetE cp.indexes t.r t.c
    let result := dijkstra cp.graph s goalo
    let sentinel ← unwrapE (← idxGetE cp.indexes 0 4)
    return lookupScore result sentinel

/-- `ChartedPaths::shortest_path_cost_a_star`.  The goal-node unwrap sits in
the `finish` closure, which runs at the first heap pop; since the start node
is always popped, it is modelled as evaluated up front. -/
def shortest_path_cost_a_star (cp : ChartedPaths) (f t : ChartedCoordinate) :
    Except Unit (Option Nat) :=
  if check_boundaries cp f t = false then .ok none
  else do
    let s ← unwrapE (← idxGetE cp.indexes f.r f.c)
    let gl ← unwrapE (← idxGetE cp.indexes t.r t.c)
    match astar cp.graph s gl with
    | none => return none
    | some info => return some info.1

/-- `ChartedPaths::index_to_coordinate`: row-major scan of `indexes` for the
first entry equal to `Some nid`. -/
def index_to_coordinate_aux (rows : List (List (Option Nat))) (i nid : Nat) :
    Option ChartedCoordinate :=
  match rows with
  | [] => none
  | row :: rest =>
    match row.findIdx? (fun o => o == some nid) with
    | some j => some ⟨i, j⟩
    | none => index_to_coordinate_aux rest (i + 1) nid

def index_to_coordinate (cp : ChartedPaths) (nid : Nat) :
    Option ChartedCoordinate :=
  index_to_coordinate_aux cp.indexes 0 nid

/-- `ChartedPaths::shortest_path`: astar cost and node list, nodes mapped
back to coordinates (unconvertible nodes silently skipped). -/
def shortest_path (cp : ChartedPaths) (f t : ChartedCoordinate) :
    Except Unit (Option (Nat × List ChartedCoordinate)) :=
  if check_boundaries cp f t = false then .ok none
  else do
    let s ← unwrapE (← idxGetE cp.indexes f.r f.c)
    let gl ← unwrapE (← idxGetE cp.indexes t.r t.c)
    match astar cp.graph s gl with
    | none => return none
    | some a =>
      return some (a.1, a.2.filterMap (fun i => index_to_coordinate cp i))

/-! ### Specification-side definitions

Closed forms used to state and prove properties of `init`'s scan; these are
derived views, proved equal to the operational definitions above. -/

/-- Cell `(i, j)` is discovered and walkable. -/
def walkCell (m : RMap) (i j : Nat) : Bool :=
  match getCell m i j with
  | some t => t.tile_type.walk
  | none => false

/-- Cell `(i, j)` is a discovered active teleport. -/
def teleCell (m : RMap) (i j : Nat) : Bool :=
  match getCell m i j with
  | some t => decide (t.tile_type = TileType.Teleport true)
  | none => false

/-- The node payloads contributed by columns `js` of row `i`. -/
def rowNodes (m : RMap) (i : Nat) (js : List Nat) : List ChartedCoordinate :=
  match js with
  | [] => []
  | j :: rest =>
    if walkCell m i j then ⟨i, j⟩ :: rowNodes m i rest else rowNodes m i rest

/-- The teleport worklist entries contributed by columns `js` of row `i`. -/
def rowTels (m : RMap) (i : Nat) (js : List Nat) : List ChartedCoordinate :=
  match js with
  | [] => []
  | j :: rest =>
    if teleCell m i j then ⟨i, j⟩ :: rowTels m i rest else rowTels m i rest

/-- The index-table row built for columns `js` of row `i`, when the graph
already holds `base` nodes. -/
def rowIdx (m : RMap) (i : Nat) (js : List Nat) (base : Nat) :
    List (Option Nat) :=
  match js with
  | [] => []
  | j :: rest =>
    if walkCell m i j then some base :: rowIdx m i rest (base + 1)
    else none :: rowIdx m i rest base

/-- The index-table rows built for row indices `is`. -/
def idxRows (m : RMap) (dim : Nat) (is : List Nat) (base : Nat) :
    List (List (Option Nat)) :=
  match is with
  | [] => []
  | i :: rest =>
    rowIdx m i (List.range dim) base ::
      idxRows m dim rest (base + (rowNodes m i (List.range dim)).length)

/-- All node payloads in row-major order, for row indices `is`. -/
def nodesUpTo (m : RMap) (dim : Nat) (is : List Nat) : List ChartedCoordinate :=
  match is with
  | [] => []
  | i :: rest => rowNodes m i (List.range dim) ++ nodesUpTo m dim rest

/-- All teleport worklist entries in row-major order, for row indices `is`. -/
def telsUpTo (m : RMap) (dim : Nat) (is : List Nat) : List ChartedCoordinate :=
  match is with
  | [] => []
  | i :: rest => rowTels m i (List.range dim) ++ telsUpTo m dim rest

/-- The discovered active-teleport coordinates of the map, row-major. -/
def discoveredTeleports (m : RMap) : List ChartedCoordinate :=
  telsUpTo m m.length (List.range m.length)

/-- The map is square: every row has length `N = m.length`. -/
abbrev Squarish (m : RMap) : Prop := ∀ row ∈ m, row.length = m.length

/-- Four-directional adjacency of coordinates. -/
def adjacent (a b : ChartedCoordinate) : Prop :=
  (a.r = b.r ∧ (a.c + 1 = b.c ∨ b.c + 1 = a.c)) ∨
  (a.c = b.c ∧ (a.r + 1 = b.r ∨ b.r + 1 = a.r))

instance (a b : ChartedCoordinate) : Decidable (adjacent a b) := by
  unfold adjacent
  infer_instance

/-! ### Concrete example data used by witnesses and counterexamples -/

/-- A walkable sand tile at elevation 0. -/
def sand : Tile := ⟨.Sand, 0⟩

/-- The constant environment-adjusted cost 1 (flat weather). -/
def envConst1 : Env := fun _ => 1

/-- A 1×1 map holding a single discovered walkable tile. -/
def mapSingle : RMap := [[some sand]]

/-- A 5×5 map whose first row is discovered walkable sand and whose other
rows are entirely undiscovered. -/
def mapRow5 : RMap :=
  [[some sand, some sand, some sand, some sand, some sand],
   [none, none, none, none, none],
   [none, none, none, none, none],
   [none, none, none, none, none],
   [none, none, none, none, none]]

/-- A 2×2 fully discovered map with active teleports at (0,0) and (1,1). -/
def mapTele2 : RMap :=
  [[some ⟨.Teleport true, 0⟩, some sand],
   [some sand, some ⟨.Teleport true, 0⟩]]

/-- A 2×2 map with two adjacent discovered tiles whose elevation difference
is `479772853`, a square root of `-7` modulo `2^32`. -/
def mapOverflow : RMap :=
  [[some ⟨.Sand, 0⟩, some ⟨.Sand, 479772853⟩], [none, none]]

/-- A 1×2 map (as used directly by `eval_weight`) with an elevation climb of
exactly `65536`, whose square wraps to 0 in 32-bit arithmetic. -/
def mapClimb : RMap := [[some ⟨.Sand, 0⟩, some ⟨.Sand, 65536⟩]]

/-- The constant environment-adjusted cost 3. -/
def envConst3 : Env := fun _ => 3

/-- The constant environment-adjusted cost 6. -/
def envConst6 : Env := fun _ => 6

/-- A freshly initialized `ChartedPaths` over the 1×1 map. -/
def cpSingle : ChartedPaths := init ChartedPaths.new mapSingle envConst1

/-- A freshly initialized `ChartedPaths` over the 5×5 row map. -/
def cpRow5 : ChartedPaths := init ChartedPaths.new mapRow5 envConst1

/-- The result of calling `init` a second time, on the same instance with
the same map snapshot. -/
def cpRow5Twice : ChartedPaths := init cpRow5 mapRow5 envConst1

end ChartingTools

deriving instance DecidableEq for Except

namespace ChartingTools

/-! ## Lemmas about 32-bit wrapping and the closeness predicate -/

theorem wrap32_zero : wrap32 0 = 0 := by decide

theorem wrap32_one : wrap32 1 = 1 := by decide

theorem wrap32_neg_one : wrap32 (-1) = -1 := by decide

/-- The wrapped difference of the casts of `x` and `x + 1` is exactly `-1`,
for every `usize` value `x`. -/
theorem wrap32_sub_cast_succ (x : Nat) :
    wrap32 (wrap32 (x : Int) - wrap32 ((x + 1 : Nat) : Int)) = -1 := by
  have h1 : (wrap32 (x : Int) - wrap32 ((x + 1 : Nat) : Int)) % 4294967296 =
      (-1 : Int) % 4294967296 := by
    rw [Int.sub_emod, wrap32_emod, wrap32_emod, ← Int.sub_emod]
    push_cast
    have : (x : Int) - ((x : Int) + 1) = -1 := by ring
    rw [this]
    decide
  rw [wrap32_congr h1, wrap32_neg_one]

/-- The wrapped difference of the casts of `x + 1` and `x` is exactly `1`,
for every `usize` value `x`. -/
theorem wrap32_cast_succ_sub (x : Nat) :
    wrap32 (wrap32 ((x + 1 : Nat) : Int) - wrap32 (x : Int)) = 1 := by
  have h1 : (wrap32 ((x + 1 : Nat) : Int) - wrap32 (x : Int)) % 4294967296 =
      (1 : Int) % 4294967296 := by
    rw [Int.sub_emod, wrap32_emod, wrap32_emod, ← Int.sub_emod]
    push_cast
    have : ((x : Int) + 1) - (x : Int) = 1 := by ring
    rw [this]
    decide
  rw [wrap32_congr h1, wrap32_one]

/-- `is_close_to` unpacked into the wrapped-arithmetic proposition it
decides. -/
theorem is_close_to_iff (a b : ChartedCoordinate) :
    ChartedCoordinate.is_close_to a b = true ↔
    wrap32 (wrap32 (wrap32 (wrap32 a.r - wrap32 b.r) *
                    wrap32 (wrap32 a.r - wrap32 b.r)) +
            wrap32 (wrap32 (wrap32 a.c - wrap32 b.c) *
                    wrap32 (wrap32 a.c - wrap32 b.c))) < 2 := by
  unfold ChartedCoordinate.is_close_to ChartedCoordinate.distance_to
  rw [decide_eq_true_eq]

/-- Four-directionally adjacent coordinates always test close, whatever
their magnitude. -/
theorem is_close_of_adjacent {a b : ChartedCoordinate} (h : adjacent a b) :
    ChartedCoordinate.is_close_to a b = true := by
  rw [is_close_to_iff]
  rcases h with ⟨hr, hc | hc⟩ | ⟨hc, hr | hr⟩
  · rw [hr, sub_self, wrap32_zero, ← hc, wrap32_sub_cast_succ]
    decide
  · rw [hr, sub_self, wrap32_zero, ← hc, wrap32_cast_succ_sub]
    decide
  · rw [hc, sub_self, wrap32_zero, ← hr, wrap32_sub_cast_succ]
    decide
  · rw [hc, sub_self, wrap32_zero, ← hr, wrap32_cast_succ_sub]
    decide

/-- Every integer square is 0 (at 0), 1 (at ±1), or at least 4. -/
theorem int_sq_cases (x : Int) :
    (x = 0 ∧ x * x = 0) ∨ ((x = 1 ∨ x = -1) ∧ x * x = 1) ∨ 4 ≤ x * x := by
  by_cases h0 : x = 0
  · exact Or.inl ⟨h0, by rw [h0]; ring⟩
  by_cases h1 : x = 1
  · exact Or.inr (Or.inl ⟨Or.inl h1, by rw [h1]; ring⟩)
  by_cases hm : x = -1
  · exact Or.inr (Or.inl ⟨Or.inr hm, by rw [hm]; ring⟩)
  · refine Or.inr (Or.inr ?_)
    have h2 : 2 ≤ x ∨ x ≤ -2 := by omega
    rcases h2 with h2 | h2
    · nlinarith
    · nlinarith

/-! ## Claim C10 -/

/-- Claim C10 counterexample: for the pair `(0,0)`, `(46341,0)` the squared
row difference `46341² = 2147488281` overflows `i32` and wraps negative, so
`is_close_to` reports `true` even though the coordinates are neither equal
nor four-directionally adjacent (and the true `(Δrow)² + (Δcol)²` is far
above 2). -/
theorem c10_counterexample :
    ChartedCoordinate.is_close_to ⟨0, 0⟩ ⟨46341, 0⟩ = true ∧
    ¬((⟨0, 0⟩ : ChartedCoordinate) = ⟨46341, 0⟩ ∨
      adjacent ⟨0, 0⟩ ⟨46341, 0⟩) := by
  decide

/-- Claim C10 (amended): for coordinates whose components are all below
`32768` (so the `i32` casts are exact and no square or sum overflows),
`is_close_to a b` is true iff `a` and `b` are equal or four-directionally
adjacent — equivalently iff the exact `(Δrow)² + (Δcol)²` is below 2.  For
larger components the wrapping `i32` arithmetic can report distant pairs as
close (see the counterexample). -/
theorem c10_is_close_iff_adjacent (a b : ChartedCoordinate)
    (h1 : a.r < 32768) (h2 : a.c < 32768) (h3 : b.r < 32768)
    (h4 : b.c < 32768) :
    ChartedCoordinate.is_close_to a b = true ↔ (a = b ∨ adjacent a b) := by
  rw [is_close_to_iff]
  rw [wrap32_of_small (z := (a.r : Int)) (by omega) (by omega),
      wrap32_of_small (z := (b.r : Int)) (by omega) (by omega),
      wrap32_of_small (z := (a.c : Int)) (by omega) (by omega),
      wrap32_of_small (z := (b.c : Int)) (by omega) (by omega)]
  rw [wrap32_of_small (z := (a.r : Int) - b.r) (by omega) (by omega),
      wrap32_of_small (z := (a.c : Int) - b.c) (by omega) (by omega)]
  have hu2 : ((a.r : Int) - b.r) * ((a.r : Int) - b.r) < 1073741824 := by
    nlinarith [mul_pos (show (0 : Int) < 32768 - ((a.r : Int) - b.r) by omega)
      (show (0 : Int) < 32768 + ((a.r : Int) - b.r) by omega)]
  have hv2 : ((a.c : Int) - b.c) * ((a.c : Int) - b.c) < 1073741824 := by
    nlinarith [mul_pos (show (0 : Int) < 32768 - ((a.c : Int) - b.c) by omega)
      (show (0 : Int) < 32768 + ((a.c : Int) - b.c) by omega)]
  have hu0 : 0 ≤ ((a.r : Int) - b.r) * ((a.r : Int) - b.r) := mul_self_nonneg _
  have hv0 : 0 ≤ ((a.c : Int) - b.c) * ((a.c : Int) - b.c) := mul_self_nonneg _
  rw [wrap32_of_small
        (z := ((a.r : Int) - b.r) * ((a.r : Int) - b.r)) (by linarith) (by linarith),
      wrap32_of_small
        (z := ((a.c : Int) - b.c) * ((a.c : Int) - b.c)) (by linarith) (by linarith),
      wrap32_of_small (by linarith) (by linarith)]
  obtain ⟨ar, ac⟩ := a
  obtain ⟨br, bc⟩ := b
  simp only [adjacent, ChartedCoordinate.mk.injEq] at *
  constructor
  · intro hlt
    rcases int_sq_cases ((ar : Int) - br) with ⟨p1, q1⟩ | ⟨p1, q1⟩ | q1 <;>
      rcases int_sq_cases ((ac : Int) - bc) with ⟨p2, q2⟩ | ⟨p2, q2⟩ | q2
    · omega
    · rcases p2 with p2 | p2 <;> omega
    · rw [q1] at hlt; linarith
    · rcases p1 with p1 | p1 <;> omega
    · rw [q1, q2] at hlt; omega
    · rw [q1] at hlt; linarith
    · linarith
    · linarith
    · linarith
  · intro h
    rcases h with ⟨hr, hc⟩ | ⟨hr, hc | hc⟩ | ⟨hc, hr | hr⟩
    · have e1 : (ar : Int) - br = 0 := by omega
      have e2 : (ac : Int) - bc = 0 := by omega
      rw [e1, e2]; norm_num
    · have e1 : (ar : Int) - br = 0 := by omega
      have e2 : (ac : Int) - bc = -1 := by omega
      rw [e1, e2]; norm_num
    · have e1 : (ar : Int) - br = 0 := by omega
      have e2 : (ac : Int) - bc = 1 := by omega
      rw [e1, e2]; norm_num
    · have e1 : (ar : Int) - br = -1 := by omega
      have e2 : (ac : Int) - bc = 0 := by omega
      rw [e1, e2]; norm_num
    · have e1 : (ar : Int) - br = 1 := by omega
      have e2 : (ac : Int) - bc = 0 := by omega
      rw [e1, e2]; norm_num

/-- Witness for C10's amended theorem at the concrete adjacent pair
`(2,3)`, `(2,4)`. -/
theorem c10_is_close_iff_adjacent_witness :
    ChartedCoordinate.is_close_to ⟨2, 3⟩ ⟨2, 4⟩ = true ↔
    ((⟨2, 3⟩ : ChartedCoordinate) = ⟨2, 4⟩ ∨ adjacent ⟨2, 3⟩ ⟨2, 4⟩) :=
  c10_is_close_iff_adjacent ⟨2, 3⟩ ⟨2, 4⟩ (by decide) (by decide) (by decide)
    (by decide)

/-! ## Claim C9 -/

/-- Claim C9 counterexample: the diagonal pair `(0,0) → (1,1)` yields
`Ok(Right)` (the column check fires first), not the `Err` the claim
demands for diagonal inputs. -/
theorem c9_counterexample :
    coordinates_to_direction ⟨0, 0⟩ ⟨1, 1⟩ = .ok .Right := by
  decide

/-- Claim C9 (amended): `coordinates_to_direction` returns `Ok(Left)`
whenever the column strictly decreases (by any amount, regardless of rows),
`Ok(Right)` whenever it strictly increases, and only for equal columns
`Ok(Up)`/`Ok(Down)` on a strict row decrease/increase; `Err(())` is returned
exactly for identical coordinates.  Diagonal pairs and jumps larger than one
thus get a direction, not `Err`. -/
theorem c9_direction_cases (f t : ChartedCoordinate) :
    (t.c < f.c → coordinates_to_direction f t = .ok .Left) ∧
    (f.c < t.c → coordinates_to_direction f t = .ok .Right) ∧
    (f.c = t.c → t.r < f.r → coordinates_to_direction f t = .ok .Up) ∧
    (f.c = t.c → f.r < t.r → coordinates_to_direction f t = .ok .Down) ∧
    (coordinates_to_direction f t = .error () ↔ f = t) := by
  obtain ⟨fr, fc⟩ := f
  obtain ⟨tr, tc⟩ := t
  unfold coordinates_to_direction
  refine ⟨?_, ?_, ?_, ?_, ?_⟩
  · intro h
    split_ifs <;> first | rfl | omega
  · intro h
    split_ifs <;> first | rfl | omega
  · intro h1 h2
    split_ifs <;> first | rfl | omega
  · intro h1 h2
    split_ifs <;> first | rfl | omega
  · simp only [ChartedCoordinate.mk.injEq]
    constructor
    · intro hx
      split_ifs at hx <;> first | omega | simp at hx
    · intro hx
      obtain ⟨e1, e2⟩ := hx
      split_ifs <;> first | rfl | (exfalso; omega)

/-- Witness for C9's amended theorem at concrete inputs. -/
theorem c9_direction_cases_witness :
    coordinates_to_direction ⟨1, 5⟩ ⟨1, 4⟩ = .ok .Left ∧
    coordinates_to_direction ⟨7, 2⟩ ⟨3, 2⟩ = .ok .Up :=
  ⟨(c9_direction_cases ⟨1, 5⟩ ⟨1, 4⟩).1 (by decide),
   (c9_direction_cases ⟨7, 2⟩ ⟨3, 2⟩).2.2.1 (by decide) (by decide)⟩

/-! ## Claim C5 -/

/-- The elevation penalty always equals the exact squared difference reduced
mod `2^32`: the 64-bit underflow, the `i32` truncation, the wrapping square
and the `u32` cast compose to `(Δe)² mod 2^32`. -/
theorem elevationCost_eq (e1 e2 : Nat) :
    elevationCost e1 e2 = ((((e2 : Int) - e1) ^ 2) % 4294967296).toNat := by
  unfold elevationCost toU32
  rw [wrap32_emod]
  have hv : wrap32 (((e1 : Int) - e2) % 18446744073709551616) % 4294967296 =
      ((e1 : Int) - e2) % 4294967296 := by
    rw [wrap32_emod, Int.emod_emod_of_dvd _ (by norm_num)]
  have hm : (wrap32 (((e1 : Int) - e2) % 18446744073709551616) *
             wrap32 (((e1 : Int) - e2) % 18446744073709551616)) % 4294967296 =
      (((e1 : Int) - e2) * ((e1 : Int) - e2)) % 4294967296 := by
    rw [Int.mul_emod, hv, ← Int.mul_emod]
  rw [hm]
  congr 1
  have he : ((e1 : Int) - e2) * ((e1 : Int) - e2) = ((e2 : Int) - e1) ^ 2 := by
    ring
  rw [he]

/-- The elevation penalty is the exact Nat square when it fits in 32 bits. -/
theorem elevationCost_of_fits {e1 e2 : Nat} (h : e1 ≤ e2)
    (hs : (e2 - e1) ^ 2 < 4294967296) :
    elevationCost e1 e2 = (e2 - e1) ^ 2 := by
  rw [elevationCost_eq]
  have hc : ((e2 : Int) - e1) = ((e2 - e1 : Nat) : Int) := by omega
  rw [hc]
  have h2 : (((e2 - e1 : Nat) : Int)) ^ 2 = (((e2 - e1) ^ 2 : Nat) : Int) := by
    push_cast
    ring
  rw [h2, Int.emod_eq_of_lt (by positivity) (by exact_mod_cast hs)]
  exact Int.toNat_natCast _

/-- Claim C5 counterexample: for adjacent discovered cells at elevations 0
and 65536 with adjusted base cost 3, the claim demands
`3 + 65536² = 3 + 2^32`, but the penalty is computed in wrapping 32-bit
arithmetic, `65536²` wraps to 0, and `eval_weight` returns just 3. -/
theorem c5_counterexample :
    eval_weight ⟨0, 0⟩ ⟨0, 1⟩ mapClimb envConst3 = 3 ∧
    (3 : Nat) ≠ envConst3 TileType.Sand % 4294967296 + (65536 - 0 : Nat) ^ 2 := by
  constructor
  · decide
  · decide

/-- The cost model's behavior on a discovered adjacent pair, under the
no-overflow side condition (shared helper behind claims C5 and C8). -/
theorem eval_weight_adjacent_spec (m : RMap) (env : Env)
    (f t : ChartedCoordinate) (tf tt2 : Tile) (hadj : adjacent f t)
    (hf : getCell m f.r f.c = some tf) (ht : getCell m t.r t.c = some tt2)
    (hov : env tf.tile_type % 4294967296 +
           (tt2.elevation - tf.elevation) ^ 2 < 4294967296) :
    (tt2.elevation ≤ tf.elevation →
      eval_weight f t m env = env tf.tile_type % 4294967296) ∧
    (tf.elevation < tt2.elevation →
      eval_weight f t m env = env tf.tile_type % 4294967296 +
        (tt2.elevation - tf.elevation) ^ 2) ∧
    0 ≤ eval_weight f t m env := by
  have hclose := is_close_of_adjacent hadj
  have hew : eval_weight f t m env =
      (if tf.elevation < tt2.elevation then
        (env tf.tile_type % 4294967296 +
         elevationCost tf.elevation tt2.elevation) % 4294967296
       else env tf.tile_type % 4294967296) := by
    unfold eval_weight
    rw [hclose, if_pos rfl, hf, ht]
  rw [hew]
  refine ⟨?_, ?_, Nat.zero_le _⟩
  · intro hle
    rw [if_neg (by omega)]
  · intro hlt
    rw [if_pos hlt]
    have hsq : (tt2.elevation - tf.elevation) ^ 2 < 4294967296 := by omega
    rw [elevationCost_of_fits (Nat.le_of_lt hlt) hsq]
    exact Nat.mod_eq_of_lt hov

/-- Claim C5 (amended): for every four-directionally adjacent pair of
discovered cells, `eval_weight` equals the environment-adjusted base cost of
`from`'s tile (reduced by the `as u32` cast) when `to`'s elevation does not
exceed `from`'s, and equals that base cost plus the squared elevation
difference when `to` is strictly higher, **provided** the base cost plus the
squared difference fits in 32 bits — the penalty and the sum are computed in
wrapping 32-bit arithmetic, so larger values wrap (see the counterexample).
The result is a natural number, hence non-negative, in all cases. -/
theorem c5_eval_weight_adjacent (m : RMap) (env : Env)
    (f t : ChartedCoordinate) (tf tt2 : Tile) (hadj : adjacent f t)
    (hf : getCell m f.r f.c = some tf) (ht : getCell m t.r t.c = some tt2)
    (hov : env tf.tile_type % 4294967296 +
           (tt2.elevation - tf.elevation) ^ 2 < 4294967296) :
    (tt2.elevation ≤ tf.elevation →
      eval_weight f t m env = env tf.tile_type % 4294967296) ∧
    (tf.elevation < tt2.elevation →
      eval_weight f t m env = env tf.tile_type % 4294967296 +
        (tt2.elevation - tf.elevation) ^ 2) ∧
    0 ≤ eval_weight f t m env :=
  eval_weight_adjacent_spec m env f t tf tt2 hadj hf ht hov

/-- Witness for C5's amended theorem: a flat step and an uphill step on a
concrete 1×2 map with elevations 0 and 3 and adjusted base cost 3. -/
theorem c5_eval_weight_adjacent_witness :
    eval_weight ⟨0, 0⟩ ⟨0, 1⟩ [[some ⟨.Sand, 0⟩, some ⟨.Sand, 3⟩]] envConst3 =
      envConst3 TileType.Sand % 4294967296 + (3 - 0 : Nat) ^ 2 :=
  (c5_eval_weight_adjacent [[some ⟨.Sand, 0⟩, some ⟨.Sand, 3⟩]] envConst3
    ⟨0, 0⟩ ⟨0, 1⟩ ⟨.Sand, 0⟩ ⟨.Sand, 3⟩ (by decide) (by decide) (by decide)
    (by decide)).2.1 (by decide)

/-! ## Claim C1 -/

/-- Claim C1 (code bug): `shortest_path_cost` reads the accumulated distance
at the hard-coded index entry `(0,4)` — the source line is
`result.get(&self.indexes[0][4].unwrap())` — instead of at `to`'s node.
Consequences, proved here by evaluation of the embedding:
on a 1×1 map with a single discovered walkable tile, the self-distance query
`shortest_path_cost((0,0),(0,0))` panics (row 0 has no column 4) instead of
returning `Some 0`; on the 5×5 row map, `shortest_path_cost((0,4),(0,0))`
returns `Some 0` (the distance to `(0,4)` itself) although `(0,0)` is 4 edges
away, and `shortest_path_cost((0,0),(0,1))` returns `None` (dijkstra breaks
at the goal `(0,1)` before node `(0,4)` is ever scored) although `(0,1)` is
connected at distance 1. -/
theorem c1_hardcoded_sentinel_bug :
    shortest_path_cost cpSingle ⟨0, 0⟩ ⟨0, 0⟩ = .error () ∧
    shortest_path_cost cpRow5 ⟨0, 4⟩ ⟨0, 0⟩ = .ok (some 0) ∧
    shortest_path_cost cpRow5 ⟨0, 0⟩ ⟨0, 1⟩ = .ok none := by
  refine ⟨by decide, by decide, by decide⟩

/-! ## Claim C2 -/

/-- Claim C2 (code bug): for an in-range but never-discovered coordinate
(here `(1,0)` of the 5×5 row map), every query panics on
`self.indexes[from.0][from.1].unwrap()` instead of returning `None`:
`check_boundaries` only checks the bounds, not node existence. -/
theorem c2_unwrap_panic_bug :
    shortest_path_cost cpRow5 ⟨1, 0⟩ ⟨0, 0⟩ = .error () ∧
    shortest_path_cost_a_star cpRow5 ⟨1, 0⟩ ⟨0, 0⟩ = .error () ∧
    shortest_path cpRow5 ⟨1, 0⟩ ⟨0, 0⟩ = .error () := by
  refine ⟨by decide, by decide, by decide⟩

/-! ## Claim C3 -/

/-- Claim C3 (code bug): on the 5×5 row map, `shortest_path((0,4),(0,0))`
returns the cost-4 five-coordinate path (first element `from`, last `to`),
but `shortest_path_cost((0,4),(0,0))` returns `Some 0` because of the
hard-coded `(0,4)` read — the claimed cost agreement fails. -/
theorem c3_cost_mismatch_bug :
    shortest_path cpRow5 ⟨0, 4⟩ ⟨0, 0⟩ =
      .ok (some (4, [⟨0, 4⟩, ⟨0, 3⟩, ⟨0, 2⟩, ⟨0, 1⟩, ⟨0, 0⟩])) ∧
    shortest_path_cost cpRow5 ⟨0, 4⟩ ⟨0, 0⟩ = .ok (some 0) := by
  refine ⟨by decide, by decide⟩

/-! ## Closed forms of the `adds_nodes` scan -/

theorem teleport_walk (b : Bool) : TileType.walk (.Teleport b) = true := rfl

/-- A discovered teleport cell is walkable. -/
theorem walkCell_of_teleCell {m : RMap} {i j : Nat}
    (h : teleCell m i j = true) : walkCell m i j = true := by
  unfold teleCell at h
  unfold walkCell
  cases hc : getCell m i j with
  | none => rw [hc] at h; simp at h
  | some t =>
    rw [hc] at h
    simp only [decide_eq_true_eq] at h
    show t.tile_type.walk = true
    rw [h]
    rfl

/-- Closed form of one row of the `adds_nodes` scan. -/
theorem addRowAux_spec (m : RMap) (i : Nat) (js : List Nat) :
    ∀ (g : PGraph) (tps : List ChartedCoordinate) (row : List (Option Nat)),
    addRowAux m i js g tps row =
      ({ nodes := g.nodes ++ rowNodes m i js, edges := g.edges },
       tps ++ rowTels m i js,
       row ++ rowIdx m i js g.nodes.length) := by
  induction js with
  | nil =>
    intro g tps row
    simp [addRowAux, rowNodes, rowTels, rowIdx]
  | cons j rest ih =>
    intro g tps row
    cases hc : getCell m i j with
    | none =>
      have hw : walkCell m i j = false := by unfold walkCell; rw [hc]
      have htl : teleCell m i j = false := by unfold teleCell; rw [hc]
      simp only [addRowAux, hc]
      rw [ih]
      simp [rowNodes, rowTels, rowIdx, hw, htl]
    | some pt =>
      cases hwb : pt.tile_type.walk with
      | false =>
        have hw : walkCell m i j = false := by unfold walkCell; rw [hc]; exact hwb
        have htl : teleCell m i j = false := by
          unfold teleCell
          rw [hc]
          simp only [decide_eq_false_iff_not]
          intro h
          rw [h] at hwb
          simp [TileType.walk] at hwb
        simp only [addRowAux, hc, hwb]
        rw [if_pos trivial, ih]
        simp [rowNodes, rowTels, rowIdx, hw, htl]
      | true =>
        have hw : walkCell m i j = true := by unfold walkCell; rw [hc]; exact hwb
        by_cases htp : pt.tile_type = TileType.Teleport true
        · have htl : teleCell m i j = true := by
            unfold teleCell; rw [hc]; simp [htp]
          simp only [addRowAux, hc, hwb]
          rw [if_neg (by simp), if_pos htp, ih]
          simp [rowNodes, rowTels, rowIdx, hw, htl, List.append_assoc]
        · have htl : teleCell m i j = false := by
            unfold teleCell; rw [hc]; simp [htp]
          simp only [addRowAux, hc, hwb]
          rw [if_neg (by simp), if_neg htp, ih]
          simp [rowNodes, rowTels, rowIdx, hw, htl, List.append_assoc]

/-- Closed form of the outer row loop of `adds_nodes`. -/
theorem addsNodesAux_spec (m : RMap) (dim : Nat) (is : List Nat) :
    ∀ (indexes : List (List (Option Nat))) (g : PGraph)
      (tps : List ChartedCoordinate),
    addsNodesAux m dim is indexes g tps =
      (indexes ++ idxRows m dim is g.nodes.length,
       { nodes := g.nodes ++ nodesUpTo m dim is, edges := g.edges },
       tps ++ telsUpTo m dim is) := by
  induction is with
  | nil =>
    intro indexes g tps
    simp [addsNodesAux, idxRows, nodesUpTo, telsUpTo]
  | cons i rest ih =>
    intro indexes g tps
    simp only [addsNodesAux]
    rw [addRowAux_spec]
    rw [ih]
    simp [idxRows, nodesUpTo, telsUpTo, List.append_assoc]

/-- Closed form of `init`: the new graph and the appended index rows. -/
theorem init_spec (cp : ChartedPaths) (m : RMap) (env : Env) :
    init cp m env =
      { graph :=
          { nodes := nodesUpTo m m.length (List.range m.length),
            edges :=
              adjEdges m env m.length
                  (cp.indexes ++ idxRows m m.length (List.range m.length) 0) ++
                teleportEdges (telsUpTo m m.length (List.range m.length))
                  (cp.indexes ++ idxRows m m.length (List.range m.length) 0) },
        indexes := cp.indexes ++ idxRows m m.length (List.range m.length) 0,
        teleports_edges := cp.teleports_edges ++
          List.range'
            (adjEdges m env m.length
              (cp.indexes ++ idxRows m m.length (List.range m.length) 0)).length
            (teleportEdges (telsUpTo m m.length (List.range m.length))
              (cp.indexes ++ idxRows m m.length (List.range m.length) 0)).length } := by
  unfold init adds_nodes
  simp only [addsNodesAux_spec]
  simp [PGraph.empty]

/-! ## Positional structure of the index table and the node list -/

theorem rowIdx_length (m : RMap) (i : Nat) (js : List Nat) :
    ∀ b, (rowIdx m i js b).length = js.length := by
  induction js with
  | nil => intro b; rfl
  | cons j rest ih =>
    intro b
    unfold rowIdx
    by_cases hw : walkCell m i j <;> simp [hw, ih]

theorem idxRows_length (m : RMap) (dim : Nat) (is : List Nat) :
    ∀ b, (idxRows m dim is b).length = is.length := by
  induction is with
  | nil => intro b; rfl
  | cons i rest ih =>
    intro b
    unfold idxRows
    simp [ih]

/-- Entry `d` of the row table built for columns `range' s n`: `some` of
the running node id iff cell `(i, s + d)` is walkable and discovered. -/
theorem rowIdx_get (m : RMap) (i : Nat) :
    ∀ (n s b d : Nat), d < n →
    (rowIdx m i (List.range' s n) b).get? d =
      some (if walkCell m i (s + d) then
              some (b + (rowNodes m i (List.range' s d)).length)
            else none) := by
  intro n
  induction n with
  | zero => intro s b d h; omega
  | succ n ih =>
    intro s b d h
    rw [List.range'_succ]
    cases d with
    | zero =>
      by_cases hw : walkCell m i s <;> simp [rowIdx, rowNodes, List.range', hw]
    | succ e =>
      have harg : s + 1 + e = s + (e + 1) := by omega
      by_cases hw : walkCell m i s
      · have houter : rowIdx m i (s :: List.range' (s + 1) n) b =
            some b :: rowIdx m i (List.range' (s + 1) n) (b + 1) := by
          simp [rowIdx, hw]
        have hpre : (rowNodes m i (List.range' s (e + 1))).length =
            (rowNodes m i (List.range' (s + 1) e)).length + 1 := by
          rw [List.range'_succ]
          simp [rowNodes, hw]
        rw [houter, List.get?_cons_succ, ih (s + 1) (b + 1) e (by omega),
          harg, hpre]
        have harith : b + 1 + (rowNodes m i (List.range' (s + 1) e)).length =
            b + ((rowNodes m i (List.range' (s + 1) e)).length + 1) := by omega
        rw [harith]
      · have houter : rowIdx m i (s :: List.range' (s + 1) n) b =
            none :: rowIdx m i (List.range' (s + 1) n) b := by
          simp [rowIdx, hw]
        have hpre : (rowNodes m i (List.range' s (e + 1))).length =
            (rowNodes m i (List.range' (s + 1) e)).length := by
          rw [List.range'_succ]
          simp [rowNodes, hw]
        rw [houter, List.get?_cons_succ, ih (s + 1) b e (by omega), harg, hpre]

/-- Row `d` of the table built for rows `range' s n` is the row table of row
`s + d`, based at the number of nodes of all earlier rows. -/
theorem idxRows_get (m : RMap) (dim : Nat) :
    ∀ (n s b d : Nat), d < n →
    (idxRows m dim (List.range' s n) b).get? d =
      some (rowIdx m (s + d) (List.range dim)
        (b + (nodesUpTo m dim (List.range' s d)).length)) := by
  intro n
  induction n with
  | zero => intro s b d h; omega
  | succ n ih =>
    intro s b d h
    rw [List.range'_succ]
    cases d with
    | zero => simp [idxRows, nodesUpTo, List.range']
    | succ e =>
      have harg : s + 1 + e = s + (e + 1) := by omega
      have houter : idxRows m dim (s :: List.range' (s + 1) n) b =
          rowIdx m s (List.range dim) b ::
            idxRows m dim (List.range' (s + 1) n)
              (b + (rowNodes m s (List.range dim)).length) := by
        simp [idxRows]
      have hpre : (nodesUpTo m dim (List.range' s (e + 1))).length =
          (rowNodes m s (List.range dim)).length +
          (nodesUpTo m dim (List.range' (s + 1) e)).length := by
        rw [List.range'_succ]
        simp [nodesUpTo]
      rw [houter, List.get?_cons_succ,
        ih (s + 1) (b + (rowNodes m s (List.range dim)).length) e (by omega),
        harg, hpre]
      have harith : b + (rowNodes m s (List.range dim)).length +
          (nodesUpTo m dim (List.range' (s + 1) e)).length =
          b + ((rowNodes m s (List.range dim)).length +
            (nodesUpTo m dim (List.range' (s + 1) e)).length) := by omega
      rw [harith]

/-- The walkable cell `(i, s + d)` sits in its row's node list exactly at
the count of earlier walkable cells. -/
theorem rowNodes_get (m : RMap) (i : Nat) :
    ∀ (n s d : Nat), d < n → walkCell m i (s + d) = true →
    (rowNodes m i (List.range' s n)).get?
        ((rowNodes m i (List.range' s d)).length) =
      some ⟨i, s + d⟩ := by
  intro n
  induction n with
  | zero => intro s d h; omega
  | succ n ih =>
    intro s d h hw
    rw [List.range'_succ]
    cases d with
    | zero =>
      simp only [Nat.add_zero] at hw
      simp [rowNodes, List.range', hw]
    | succ e =>
      have harg : s + 1 + e = s + (e + 1) := by omega
      have hihw : walkCell m i (s + 1 + e) = true := by rw [harg]; exact hw
      by_cases hws : walkCell m i s
      · have houter : rowNodes m i (s :: List.range' (s + 1) n) =
            ⟨i, s⟩ :: rowNodes m i (List.range' (s + 1) n) := by
          simp [rowNodes, hws]
        have hpre : (rowNodes m i (List.range' s (e + 1))).length =
            (rowNodes m i (List.range' (s + 1) e)).length + 1 := by
          rw [List.range'_succ]
          simp [rowNodes, hws]
        rw [houter, hpre, List.get?_cons_succ]
        have := ih (s + 1) e (by omega) hihw
        rw [harg] at this
        exact this
      · have houter : rowNodes m i (s :: List.range' (s + 1) n) =
            rowNodes m i (List.range' (s + 1) n) := by
          simp [rowNodes, hws]
        have hpre : (rowNodes m i (List.range' s (e + 1))).length =
            (rowNodes m i (List.range' (s + 1) e)).length := by
          rw [List.range'_succ]
          simp [rowNodes, hws]
        rw [houter, hpre]
        have := ih (s + 1) e (by omega) hihw
        rw [harg] at this
        exact this

/-- Lifting a within-row node position to the full row-major node list. -/
theorem nodesUpTo_get (m : RMap) (dim : Nat) :
    ∀ (n s d k : Nat) (x : ChartedCoordinate), d < n →
    (rowNodes m (s + d) (List.range dim)).get? k = some x →
    (nodesUpTo m dim (List.range' s n)).get?
        ((nodesUpTo m dim (List.range' s d)).length + k) =
      some x := by
  intro n
  induction n with
  | zero => intro s d k x h; omega
  | succ n ih =>
    intro s d k x h hk
    rw [List.range'_succ]
    cases d with
    | zero =>
      simp only [Nat.add_zero] at hk
      have hlen : k < (rowNodes m s (List.range dim)).length := by
        obtain ⟨hl, _⟩ := List.get?_eq_some.mp hk
        exact hl
      have hz : (nodesUpTo m dim (List.range' s 0)).length + k = k := by
        simp [nodesUpTo, List.range']
      have houter : nodesUpTo m dim (s :: List.range' (s + 1) n) =
          rowNodes m s (List.range dim) ++
            nodesUpTo m dim (List.range' (s + 1) n) := by
        simp [nodesUpTo]
      rw [hz, houter, List.get?_append hlen]
      exact hk
    | succ e =>
      have harg : s + 1 + e = s + (e + 1) := by omega
      have hihk : (rowNodes m (s + 1 + e) (List.range dim)).get? k = some x := by
        rw [harg]; exact hk
      have houter : nodesUpTo m dim (s :: List.range' (s + 1) n) =
          rowNodes m s (List.range dim) ++
            nodesUpTo m dim (List.range' (s + 1) n) := by
        simp [nodesUpTo]
      have hpre : (nodesUpTo m dim (List.range' s (e + 1))).length =
          (rowNodes m s (List.range dim)).length +
          (nodesUpTo m dim (List.range' (s + 1) e)).length := by
        rw [List.range'_succ]
        simp [nodesUpTo]
      rw [houter, hpre, List.get?_append_right (by omega)]
      have harith : (rowNodes m s (List.range dim)).length +
          (nodesUpTo m dim (List.range' (s + 1) e)).length + k -
          (rowNodes m s (List.range dim)).length =
          (nodesUpTo m dim (List.range' (s + 1) e)).length + k := by omega
      rw [harith]
      exact ih (s + 1) e k x (by omega) hihk

/-- The index table of a fresh `init`: entry `(i, j)` is `some` of the
row-major walkable-cell count before `(i, j)` iff the cell is walkable and
discovered, else `none`. -/
theorem idxGet_idxRows (m : RMap) (i j : Nat) (hi : i < m.length)
    (hj : j < m.length) :
    idxGet (idxRows m m.length (List.range m.length) 0) i j =
      some (if walkCell m i j then
              some ((nodesUpTo m m.length (List.range' 0 i)).length +
                    (rowNodes m i (List.range' 0 j)).length)
            else none) := by
  have h1 := idxRows_get m m.length m.length 0 0 i hi
  unfold idxGet
  rw [List.range_eq_range', h1]
  show (rowIdx m (0 + i) (List.range m.length)
      (0 + (nodesUpTo m m.length (List.range' 0 i)).length)).get? j =
    some (if walkCell m i j then
            some ((nodesUpTo m m.length (List.range' 0 i)).length +
                  (rowNodes m i (List.range' 0 j)).length)
          else none)
  have h2 := rowIdx_get m (0 + i) m.length 0
      (0 + (nodesUpTo m m.length (List.range' 0 i)).length) j hj
  rw [List.range_eq_range', h2]
  simp only [Nat.zero_add]

theorem rowNodes_mem (m : RMap) (i : Nat) (js : List Nat)
    (x : ChartedCoordinate) :
    x ∈ rowNodes m i js ↔
      (x.r = i ∧ x.c ∈ js ∧ walkCell m i x.c = true) := by
  induction js with
  | nil => simp [rowNodes]
  | cons j rest ih =>
    by_cases hw : walkCell m i j
    · have houter : rowNodes m i (j :: rest) = ⟨i, j⟩ :: rowNodes m i rest := by
        simp [rowNodes, hw]
      rw [houter]
      simp only [List.mem_cons, ih]
      constructor
      · rintro (rfl | ⟨h1, h2, h3⟩)
        · exact ⟨rfl, Or.inl rfl, hw⟩
        · exact ⟨h1, Or.inr h2, h3⟩
      · rintro ⟨h1, h2 | h2, h3⟩
        · left
          obtain ⟨xr, xc⟩ := x
          simp only at h1 h2
          rw [h1, h2]
        · right
          exact ⟨h1, h2, h3⟩
    · have houter : rowNodes m i (j :: rest) = rowNodes m i rest := by
        simp [rowNodes, hw]
      rw [houter, ih]
      simp only [List.mem_cons]
      constructor
      · rintro ⟨h1, h2, h3⟩
        exact ⟨h1, Or.inr h2, h3⟩
      · rintro ⟨h1, h2 | h2, h3⟩
        · rw [h2] at h3
          exact absurd h3 hw
        · exact ⟨h1, h2, h3⟩

theorem nodesUpTo_mem (m : RMap) (dim : Nat) (is : List Nat)
    (x : ChartedCoordinate) :
    x ∈ nodesUpTo m dim is ↔
      (x.r ∈ is ∧ x.c ∈ List.range dim ∧ walkCell m x.r x.c = true) := by
  induction is with
  | nil => simp [nodesUpTo]
  | cons i rest ih =>
    have houter : nodesUpTo m dim (i :: rest) =
        rowNodes m i (List.range dim) ++ nodesUpTo m dim rest := by
      simp [nodesUpTo]
    rw [houter]
    simp only [List.mem_append, ih, rowNodes_mem, List.mem_cons]
    constructor
    · rintro (⟨h1, h2, h3⟩ | ⟨h1, h2, h3⟩)
      · refine ⟨Or.inl h1, h2, ?_⟩
        rw [h1]
        exact h3
      · exact ⟨Or.inr h1, h2, h3⟩
    · rintro ⟨h1 | h1, h2, h3⟩
      · left
        refine ⟨h1, h2, ?_⟩
        rw [← h1]
        exact h3
      · right
        exact ⟨h1, h2, h3⟩

theorem rowTels_mem (m : RMap) (i : Nat) (js : List Nat)
    (x : ChartedCoordinate) :
    x ∈ rowTels m i js ↔
      (x.r = i ∧ x.c ∈ js ∧ teleCell m i x.c = true) := by
  induction js with
  | nil => simp [rowTels]
  | cons j rest ih =>
    by_cases hw : teleCell m i j
    · have houter : rowTels m i (j :: rest) = ⟨i, j⟩ :: rowTels m i rest := by
        simp [rowTels, hw]
      rw [houter]
      simp only [List.mem_cons, ih]
      constructor
      · rintro (rfl | ⟨h1, h2, h3⟩)
        · exact ⟨rfl, Or.inl rfl, hw⟩
        · exact ⟨h1, Or.inr h2, h3⟩
      · rintro ⟨h1, h2 | h2, h3⟩
        · left
          obtain ⟨xr, xc⟩ := x
          simp only at h1 h2
          rw [h1, h2]
        · right
          exact ⟨h1, h2, h3⟩
    · have houter : rowTels m i (j :: rest) = rowTels m i rest := by
        simp [rowTels, hw]
      rw [houter, ih]
      simp only [List.mem_cons]
      constructor
      · rintro ⟨h1, h2, h3⟩
        exact ⟨h1, Or.inr h2, h3⟩
      · rintro ⟨h1, h2 | h2, h3⟩
        · rw [h2] at h3
          exact absurd h3 hw
        · exact ⟨h1, h2, h3⟩

theorem telsUpTo_mem (m : RMap) (dim : Nat) (is : List Nat)
    (x : ChartedCoordinate) :
    x ∈ telsUpTo m dim is ↔
      (x.r ∈ is ∧ x.c ∈ List.range dim ∧ teleCell m x.r x.c = true) := by
  induction is with
  | nil => simp [telsUpTo]
  | cons i rest ih =>
    have houter : telsUpTo m dim (i :: rest) =
        rowTels m i (List.range dim) ++ telsUpTo m dim rest := by
      simp [telsUpTo]
    rw [houter]
    simp only [List.mem_append, ih, rowTels_mem, List.mem_cons]
    constructor
    · rintro (⟨h1, h2, h3⟩ | ⟨h1, h2, h3⟩)
      · refine ⟨Or.inl h1, h2, ?_⟩
        rw [h1]
        exact h3
      · exact ⟨Or.inr h1, h2, h3⟩
    · rintro ⟨h1 | h1, h2, h3⟩
      · left
        refine ⟨h1, h2, ?_⟩
        rw [← h1]
        exact h3
      · right
        exact ⟨h1, h2, h3⟩

/-! ## Claim C7 -/

/-- Claim C7 (confirmed): after a fresh `init` on a square `N×N` grid, for
every `i, j < N`: the index table holds `Some node-id` iff cell `(i, j)` is
discovered and walkable (`walkCell`), iff the graph holds a node carrying
`(i, j)`; and the stored node id points at exactly the node carrying
`(i, j)`.  Undiscovered or unwalkable cells contribute `None` and no node. -/
theorem c7_index_node_invariant (m : RMap) (env : Env) (hsq : Squarish m)
    (i j : Nat) (hi : i < m.length) (hj : j < m.length) :
    ((walkCell m i j = true) ↔
      ∃ k, idxGet (init ChartedPaths.new m env).indexes i j = some (some k)) ∧
    (∀ k, idxGet (init ChartedPaths.new m env).indexes i j = some (some k) →
      (init ChartedPaths.new m env).graph.nodes.get? k = some ⟨i, j⟩) ∧
    ((⟨i, j⟩ : ChartedCoordinate) ∈ (init ChartedPaths.new m env).graph.nodes ↔
      walkCell m i j = true) := by
  rw [init_spec]
  simp only [ChartedPaths.new, List.nil_append]
  refine ⟨?_, ?_, ?_⟩
  · rw [idxGet_idxRows m i j hi hj]
    constructor
    · intro hw
      exact ⟨_, by rw [if_pos hw]⟩
    · rintro ⟨k, hk⟩
      by_cases hw : walkCell m i j
      · exact hw
      · rw [if_neg hw] at hk
        simp at hk
  · intro k hk
    rw [idxGet_idxRows m i j hi hj] at hk
    by_cases hw : walkCell m i j
    · rw [if_pos hw] at hk
      have hkval : k = (nodesUpTo m m.length (List.range' 0 i)).length +
          (rowNodes m i (List.range' 0 j)).length := by
        simpa using hk.symm
      have hrow : (rowNodes m (0 + i) (List.range m.length)).get?
          ((rowNodes m i (List.range' 0 j)).length) = some ⟨i, j⟩ := by
        rw [Nat.zero_add, List.range_eq_range']
        have := rowNodes_get m i m.length 0 j hj (by rw [Nat.zero_add]; exact hw)
        rw [Nat.zero_add] at this
        exact this
      have := nodesUpTo_get m m.length m.length 0 i
          ((rowNodes m i (List.range' 0 j)).length) ⟨i, j⟩ hi hrow
      rw [List.range_eq_range', hkval]
      exact this
    · rw [if_neg hw] at hk
      simp at hk
  · rw [nodesUpTo_mem]
    simp [List.mem_range, hi, hj]

/-- Witness for C7 at the 5×5 row map, cell (0, 2) (walkable, discovered)
and, through the same theorem, cell (1, 2) (undiscovered). -/
theorem c7_index_node_invariant_witness :
    ((walkCell mapRow5 0 2 = true) ↔
      ∃ k, idxGet (init ChartedPaths.new mapRow5 envConst1).indexes 0 2 =
        some (some k)) ∧
    ((walkCell mapRow5 1 2 = true) ↔
      ∃ k, idxGet (init ChartedPaths.new mapRow5 envConst1).indexes 1 2 =
        some (some k)) :=
  ⟨(c7_index_node_invariant mapRow5 envConst1 (by decide) 0 2 (by decide)
      (by decide)).1,
   (c7_index_node_invariant mapRow5 envConst1 (by decide) 1 2 (by decide)
      (by decide)).1⟩

/-! ## Claim C4 -/

/-- A discovered cell's row and column are within a square map's bounds. -/
theorem getCell_bounds {m : RMap} {r c : Nat} {t : Tile} (hsq : Squarish m)
    (h : getCell m r c = some t) : r < m.length ∧ c < m.length := by
  unfold getCell at h
  cases hm : m.get? r with
  | none => rw [hm] at h; simp at h
  | some row =>
    rw [hm] at h
    have hjoin : (row.get? c).join = some t := h
    have hr : r < m.length := (List.get?_eq_some.mp hm).1
    have hrowmem : row ∈ m := List.get?_mem hm
    have hc : c < row.length := by
      cases hcc : row.get? c with
      | none => rw [hcc] at hjoin; simp at hjoin
      | some o => exact (List.get?_eq_some.mp hcc).1
    rw [hsq row hrowmem] at hc
    exact ⟨hr, hc⟩

/-- The teleport mesh contains the pair `(a, b)` for every `a < b`. -/
theorem teleportEdges_mem (tps : List ChartedCoordinate)
    (idxs : List (List (Option Nat))) {a b : Nat} (hab : a < b)
    (hb : b < tps.length) :
    (unwrapIdx idxs (tps.getD a ⟨0, 0⟩),
     unwrapIdx idxs (tps.getD b ⟨0, 0⟩), 30) ∈ teleportEdges tps idxs := by
  unfold teleportEdges
  rw [List.mem_flatMap]
  refine ⟨a, List.mem_range.mpr (by omega), ?_⟩
  rw [List.mem_map]
  refine ⟨b - 1, ?_, ?_⟩
  · rw [List.mem_range'_1]
    omega
  · have hb1 : b - 1 + 1 = b := by omega
    rw [hb1]

/-- Up to one teleport produces no mesh edge. -/
theorem teleportEdges_of_le_one (tps : List ChartedCoordinate)
    (idxs : List (List (Option Nat))) (h : tps.length ≤ 1) :
    teleportEdges tps idxs = [] := by
  cases tps with
  | nil => rfl
  | cons t rest =>
    cases rest with
    | nil => rfl
    | cons t2 r2 => simp at h

/-- Claim C4 (confirmed): after `init` on a square grid, any two distinct
discovered (active) teleport cells are joined by an edge of weight exactly
30 between their graph nodes (a complete clique over discovered teleports);
and with at most one discovered teleport, `init` completes with the
adjacency edges only — no teleport-mesh edge is added. -/
theorem c4_teleport_clique (m : RMap) (env : Env) (hsq : Squarish m) :
    (∀ (t1 t2 : ChartedCoordinate) (tile1 tile2 : Tile), t1 ≠ t2 →
      getCell m t1.r t1.c = some tile1 →
      tile1.tile_type = TileType.Teleport true →
      getCell m t2.r t2.c = some tile2 →
      tile2.tile_type = TileType.Teleport true →
      ∃ n1 n2,
        idxGet (init ChartedPaths.new m env).indexes t1.r t1.c =
          some (some n1) ∧
        idxGet (init ChartedPaths.new m env).indexes t2.r t2.c =
          some (some n2) ∧
        ((n1, n2, 30) ∈ (init ChartedPaths.new m env).graph.edges ∨
         (n2, n1, 30) ∈ (init ChartedPaths.new m env).graph.edges)) ∧
    ((discoveredTeleports m).length ≤ 1 →
      (init ChartedPaths.new m env).graph.edges =
        adjEdges m env m.length
          (idxRows m m.length (List.range m.length) 0)) := by
  constructor
  · intro t1 t2 tile1 tile2 hne h1 h1t h2 h2t
    have htc1 : teleCell m t1.r t1.c = true := by
      unfold teleCell; rw [h1]; simp [h1t]
    have htc2 : teleCell m t2.r t2.c = true := by
      unfold teleCell; rw [h2]; simp [h2t]
    have hb1 := getCell_bounds hsq h1
    have hb2 := getCell_bounds hsq h2
    have hw1 : walkCell m t1.r t1.c = true := walkCell_of_teleCell htc1
    have hw2 : walkCell m t2.r t2.c = true := walkCell_of_teleCell htc2
    have hidx1 : idxGet (idxRows m m.length (List.range m.length) 0)
        t1.r t1.c = some (some
          ((nodesUpTo m m.length (List.range' 0 t1.r)).length +
           (rowNodes m t1.r (List.range' 0 t1.c)).length)) := by
      rw [idxGet_idxRows m t1.r t1.c hb1.1 hb1.2, if_pos hw1]
    have hidx2 : idxGet (idxRows m m.length (List.range m.length) 0)
        t2.r t2.c = some (some
          ((nodesUpTo m m.length (List.range' 0 t2.r)).length +
           (rowNodes m t2.r (List.range' 0 t2.c)).length)) := by
      rw [idxGet_idxRows m t2.r t2.c hb2.1 hb2.2, if_pos hw2]
    have hm1 : t1 ∈ telsUpTo m m.length (List.range m.length) := by
      rw [telsUpTo_mem]
      exact ⟨List.mem_range.mpr hb1.1, List.mem_range.mpr hb1.2, htc1⟩
    have hm2 : t2 ∈ telsUpTo m m.length (List.range m.length) := by
      rw [telsUpTo_mem]
      exact ⟨List.mem_range.mpr hb2.1, List.mem_range.mpr hb2.2, htc2⟩
    obtain ⟨p1, hp1⟩ := List.mem_iff_get.mp hm1
    obtain ⟨p2, hp2⟩ := List.mem_iff_get.mp hm2
    have hpne : p1.val ≠ p2.val := by
      intro h
      apply hne
      rw [← hp1, ← hp2]
      congr 1
      exact Fin.ext h
    have hg1 : (telsUpTo m m.length (List.range m.length)).getD p1.val
        ⟨0, 0⟩ = t1 := by
      rw [List.getD_eq_get? _ _ _, List.get?_eq_get p1.isLt]
      simpa using hp1
    have hg2 : (telsUpTo m m.length (List.range m.length)).getD p2.val
        ⟨0, 0⟩ = t2 := by
      rw [List.getD_eq_get? _ _ _, List.get?_eq_get p2.isLt]
      simpa using hp2
    have hu1 : unwrapIdx (idxRows m m.length (List.range m.length) 0) t1 =
        (nodesUpTo m m.length (List.range' 0 t1.r)).length +
        (rowNodes m t1.r (List.range' 0 t1.c)).length := by
      unfold unwrapIdx
      rw [hidx1]
      rfl
    have hu2 : unwrapIdx (idxRows m m.length (List.range m.length) 0) t2 =
        (nodesUpTo m m.length (List.range' 0 t2.r)).length +
        (rowNodes m t2.r (List.range' 0 t2.c)).length := by
      unfold unwrapIdx
      rw [hidx2]
      rfl
    rw [init_spec]
    simp only [ChartedPaths.new, List.nil_append]
    refine ⟨_, _, hidx1, hidx2, ?_⟩
    rcases Nat.lt_or_ge p1.val p2.val with hlt | hge
    · left
      apply List.mem_append_right
      have := teleportEdges_mem (telsUpTo m m.length (List.range m.length))
        (idxRows m m.length (List.range m.length) 0) hlt p2.isLt
      rw [hg1, hg2, hu1, hu2] at this
      exact this
    · right
      apply List.mem_append_right
      have hlt2 : p2.val < p1.val := by omega
      have := teleportEdges_mem (telsUpTo m m.length (List.range m.length))
        (idxRows m m.length (List.range m.length) 0) hlt2 p1.isLt
      rw [hg1, hg2, hu1, hu2] at this
      exact this
  · intro hle
    have hle2 : (telsUpTo m m.length (List.range m.length)).length ≤ 1 := hle
    rw [init_spec]
    simp only [ChartedPaths.new, List.nil_append]
    rw [teleportEdges_of_le_one _ _ hle2, List.append_nil]

/-- Witness for C4: the 2×2 two-teleport map has the weight-30 edge, and the
teleport-free 5×5 row map keeps exactly its adjacency edges. -/
theorem c4_teleport_clique_witness :
    (∃ n1 n2,
      idxGet (init ChartedPaths.new mapTele2 envConst1).indexes 0 0 =
        some (some n1) ∧
      idxGet (init ChartedPaths.new mapTele2 envConst1).indexes 1 1 =
        some (some n2) ∧
      ((n1, n2, 30) ∈ (init ChartedPaths.new mapTele2 envConst1).graph.edges ∨
       (n2, n1, 30) ∈
         (init ChartedPaths.new mapTele2 envConst1).graph.edges)) ∧
    (init ChartedPaths.new mapRow5 envConst1).graph.edges =
      adjEdges mapRow5 envConst1 mapRow5.length
        (idxRows mapRow5 mapRow5.length (List.range mapRow5.length) 0) :=
  ⟨(c4_teleport_clique mapTele2 envConst1 (by decide)).1 ⟨0, 0⟩ ⟨1, 1⟩
      ⟨.Teleport true, 0⟩ ⟨.Teleport true, 0⟩ (by decide) (by decide)
      (by decide) (by decide) (by decide),
   (c4_teleport_clique mapRow5 envConst1 (by decide)).2 (by decide)⟩

/-! ## Claim C8 -/

/-- A walkable cell is discovered with a walkable terrain. -/
theorem walkCell_getCell {m : RMap} {i j : Nat} (h : walkCell m i j = true) :
    ∃ t, getCell m i j = some t ∧ t.tile_type.walk = true := by
  unfold walkCell at h
  split at h
  · rename_i t heq
    exact ⟨t, heq, h⟩
  · exact absurd h (by decide)

/-- A stored node id in a fresh index table marks a walkable cell. -/
theorem walkCell_of_idxGet {m : RMap} {i j k : Nat} (hi : i < m.length)
    (hj : j < m.length)
    (h : idxGet (idxRows m m.length (List.range m.length) 0) i j =
      some (some k)) : walkCell m i j = true := by
  rw [idxGet_idxRows m i j hi hj] at h
  by_cases hw : walkCell m i j
  · exact hw
  · rw [if_neg hw] at h
    simp at h

/-- Every teleport-mesh edge carries weight 30. -/
theorem teleportEdges_weight {tps : List ChartedCoordinate}
    {idxs : List (List (Option Nat))} {e : Nat × Nat × Nat}
    (he : e ∈ teleportEdges tps idxs) : e.2.2 = 30 := by
  unfold teleportEdges at he
  rw [List.mem_flatMap] at he
  obtain ⟨a, _, he⟩ := he
  rw [List.mem_map] at he
  obtain ⟨i, _, he⟩ := he
  rw [← he]

set_option maxRecDepth 4000 in
/-- Every adjacency edge comes from a right- or down-neighbor pair of cells
that both received nodes, and carries the corresponding `eval_weight`. -/
theorem adjEdges_mem {m : RMap} {env : Env} {dim : Nat}
    {idxs : List (List (Option Nat))} {e : Nat × Nat × Nat}
    (he : e ∈ adjEdges m env dim idxs) :
    ∃ i j, i < dim ∧ j < dim ∧
      ((j + 1 < dim ∧ idxGet idxs i j = some (some e.1) ∧
        idxGet idxs i (j + 1) = some (some e.2.1) ∧
        e.2.2 = eval_weight ⟨i, j⟩ ⟨i, j + 1⟩ m env) ∨
       (i + 1 < dim ∧ idxGet idxs i j = some (some e.1) ∧
        idxGet idxs (i + 1) j = some (some e.2.1) ∧
        e.2.2 = eval_weight ⟨i, j⟩ ⟨i + 1, j⟩ m env)) := by
  unfold adjEdges at he
  rw [List.mem_flatMap] at he
  obtain ⟨i, hi, he⟩ := he
  rw [List.mem_flatMap] at he
  obtain ⟨j, hj, he⟩ := he
  rw [List.mem_range] at hi hj
  refine ⟨i, j, hi, hj, ?_⟩
  unfold cellEdges at he
  split at he
  · rename_i pt heq
    rw [List.mem_append] at he
    rcases he with he | he
    · by_cases hj1 : j = dim - 1
      · rw [if_pos hj1] at he
        simp at he
      · rw [if_neg hj1] at he
        split at he
        · rename_i nt heq2
          rw [List.mem_singleton] at he
          subst he
          refine Or.inl ⟨by omega, ?_, ?_, ?_⟩
          · exact heq
          · exact heq2
          · simp
        · simp at he
    · by_cases hi1 : i = dim - 1
      · rw [if_pos hi1] at he
        simp at he
      · rw [if_neg hi1] at he
        split at he
        · rename_i nt heq2
          rw [List.mem_singleton] at he
          subst he
          refine Or.inr ⟨by omega, ?_, ?_, ?_⟩
          · exact heq
          · exact heq2
          · simp
        · simp at he
  · simp at he

/-- The cost model stays below the sentinel under the no-overflow bound. -/
theorem eval_weight_lt_of_bound {m : RMap} {env : Env}
    {f t : ChartedCoordinate} {tf tt2 : Tile} (hadj : adjacent f t)
    (hf : getCell m f.r f.c = some tf) (ht : getCell m t.r t.c = some tt2)
    (hov : env tf.tile_type % 4294967296 +
      (tt2.elevation - tf.elevation) ^ 2 < 4294967295) :
    eval_weight f t m env < 4294967295 := by
  have h5 := eval_weight_adjacent_spec m env f t tf tt2 hadj hf ht (by omega)
  by_cases hlt : tf.elevation < tt2.elevation
  · rw [h5.2.1 hlt]
    exact hov
  · rw [h5.1 (by omega)]
    omega

/-- Claim C8 (amended): after a fresh `init` on a square grid, the sentinel
branches of `eval_weight` are indeed unreachable (every adjacency edge joins
two discovered, walkable, four-adjacent cells, and every other edge is a
weight-30 teleport edge), and every edge weight is strictly below
`u32::MAX` **provided** that for every discovered adjacent pair the adjusted
base cost plus the squared elevation penalty stays below `u32::MAX`.
Without that proviso the wrapping 32-bit arithmetic can make an edge weight
land exactly on the `u32::MAX` sentinel (see the counterexample). -/
theorem c8_no_sentinel_edges (m : RMap) (env : Env) (hsq : Squarish m)
    (hov : ∀ (c1 c2 : ChartedCoordinate) (t1 t2 : Tile), adjacent c1 c2 →
      getCell m c1.r c1.c = some t1 → getCell m c2.r c2.c = some t2 →
      env t1.tile_type % 4294967296 +
        (t2.elevation - t1.elevation) ^ 2 < 4294967295) :
    ∀ e ∈ (init ChartedPaths.new m env).graph.edges, e.2.2 < 4294967295 := by
  intro e he
  rw [init_spec] at he
  simp only [ChartedPaths.new, List.nil_append] at he
  rw [List.mem_append] at he
  rcases he with he | he
  · obtain ⟨i, j, hi, hj, hcase⟩ := adjEdges_mem he
    rcases hcase with ⟨hj1, hg1, hg2, hw⟩ | ⟨hi1, hg1, hg2, hw⟩
    · have walk1 := walkCell_of_idxGet hi hj hg1
      have walk2 := walkCell_of_idxGet hi hj1 hg2
      obtain ⟨tf, hcf, _⟩ := walkCell_getCell walk1
      obtain ⟨tt2, hct, _⟩ := walkCell_getCell walk2
      have hadj : adjacent ⟨i, j⟩ ⟨i, j + 1⟩ := Or.inl ⟨rfl, Or.inl rfl⟩
      have hbound := hov ⟨i, j⟩ ⟨i, j + 1⟩ tf tt2 hadj hcf hct
      rw [hw]
      exact eval_weight_lt_of_bound hadj hcf hct hbound
    · have walk1 := walkCell_of_idxGet hi hj hg1
      have walk2 := walkCell_of_idxGet hi1 hj hg2
      obtain ⟨tf, hcf, _⟩ := walkCell_getCell walk1
      obtain ⟨tt2, hct, _⟩ := walkCell_getCell walk2
      have hadj : adjacent ⟨i, j⟩ ⟨i + 1, j⟩ := Or.inr ⟨rfl, Or.inl rfl⟩
      have hbound := hov ⟨i, j⟩ ⟨i + 1, j⟩ tf tt2 hadj hcf hct
      rw [hw]
      exact eval_weight_lt_of_bound hadj hcf hct hbound
  · rw [teleportEdges_weight he]
    decide

/-- Claim C8 counterexample: on a 2×2 map whose two discovered adjacent
cells have adjusted base cost 6 and elevation difference `479772853` (an
integer square root of `-7` modulo `2^32`), `init` inserts an edge whose
weight is exactly the `u32::MAX` sentinel `4294967295`: `6 + Δe² wraps to
2^32 - 1` in the 32-bit arithmetic. -/
theorem c8_counterexample :
    (0, 1, 4294967295) ∈
      (init ChartedPaths.new mapOverflow envConst6).graph.edges := by
  decide

/-- Every discovered cell of `mapTele2` sits at elevation 0. -/
theorem mapTele2_cell {r c : Nat} {t : Tile}
    (h : getCell mapTele2 r c = some t) : t.elevation = 0 := by
  unfold getCell mapTele2 at h
  rcases r with _ | _ | r <;> rcases c with _ | _ | c <;>
    simp [sand, List.get?] at h <;> rw [← h]

/-- The no-overflow bound holds on `mapTele2` with unit costs. -/
theorem mapTele2_bound : ∀ (c1 c2 : ChartedCoordinate) (t1 t2 : Tile),
    adjacent c1 c2 → getCell mapTele2 c1.r c1.c = some t1 →
    getCell mapTele2 c2.r c2.c = some t2 →
    envConst1 t1.tile_type % 4294967296 +
      (t2.elevation - t1.elevation) ^ 2 < 4294967295 := by
  intro c1 c2 t1 t2 hadj h1 h2
  have e1 := mapTele2_cell h1
  have e2 := mapTele2_cell h2
  rw [e1, e2]
  show (1 : Nat) % 4294967296 + ((0 : Nat) - 0) ^ 2 < 4294967295
  decide

/-- Witness for C8's amended theorem on the 2×2 teleport map, read off at
its concrete teleport edge `(0, 3, 30)`. -/
theorem c8_no_sentinel_edges_witness :
    ((0, 3, 30) : Nat × Nat × Nat) ∈
      (init ChartedPaths.new mapTele2 envConst1).graph.edges ∧
    ((0, 3, 30) : Nat × Nat × Nat).2.2 < 4294967295 :=
  ⟨by decide,
   c8_no_sentinel_edges mapTele2 envConst1 (by decide) mapTele2_bound
     (0, 3, 30) (by decide)⟩

/-! ## Claim C6 -/

/-- Claim C6 counterexample: `init` never clears `self.indexes`, so a second
`init` on the 5×5 row map doubles the table to 10 rows.  The coordinate
pair `(5,0) → (5,4)`, out of range after one `init` (`None`), passes the
bounds check after the second `init` and resolves through the stale first
batch of rows to `Some 4` — the claimed invariance under re-`init` fails. -/
theorem c6_counterexample :
    shortest_path_cost cpRow5 ⟨5, 0⟩ ⟨5, 4⟩ = .ok none ∧
    shortest_path_cost cpRow5Twice ⟨5, 0⟩ ⟨5, 4⟩ = .ok (some 4) := by
  refine ⟨by decide, by decide⟩

theorem flatMap_congr_of_mem {α β : Type} {l : List α} {f g : α → List β}
    (h : ∀ a ∈ l, f a = g a) : l.flatMap f = l.flatMap g := by
  induction l with
  | nil => rfl
  | cons a rest ih =>
    rw [List.flatMap_cons, List.flatMap_cons, h a (List.mem_cons_self a rest),
      ih (fun b hb => h b (List.mem_cons_of_mem a hb))]

theorem idxGet_append_left {A B : List (List (Option Nat))} {i : Nat}
    (j : Nat) (h : i < A.length) : idxGet (A ++ B) i j = idxGet A i j := by
  unfold idxGet
  rw [List.get?_append h]

theorem idxGetE_append_left {A B : List (List (Option Nat))} {i : Nat}
    (j : Nat) (h : i < A.length) : idxGetE (A ++ B) i j = idxGetE A i j := by
  unfold idxGetE
  rw [List.get?_append h]

theorem unwrapIdx_append_left {A B : List (List (Option Nat))}
    {c : ChartedCoordinate} (h : c.r < A.length) :
    unwrapIdx (A ++ B) c = unwrapIdx A c := by
  unfold unwrapIdx
  rw [idxGet_append_left c.c h]

/-- The per-cell edge construction only reads index entries at rows and
columns below `dim`, so it is invariant under changes beyond those reads. -/
theorem cellEdges_congr {m : RMap} {env : Env} {dim : Nat}
    {A B : List (List (Option Nat))}
    (h : ∀ i j, i < dim → j < dim → idxGet A i j = idxGet B i j)
    {i j : Nat} (hi : i < dim) (hj : j < dim) :
    cellEdges m env dim A i j = cellEdges m env dim B i j := by
  unfold cellEdges
  rw [h i j hi hj]
  cases hB : idxGet B i j with
  | none => rfl
  | some o =>
    cases o with
    | none => rfl
    | some pt =>
      dsimp only
      congr 1
      · by_cases hj1 : j = dim - 1
        · rw [if_pos hj1, if_pos hj1]
        · rw [if_neg hj1, if_neg hj1, h i (j + 1) hi (by omega)]
      · by_cases hi1 : i = dim - 1
        · rw [if_pos hi1, if_pos hi1]
        · rw [if_neg hi1, if_neg hi1, h (i + 1) j (by omega) hj]

theorem adjEdges_congr {m : RMap} {env : Env} {dim : Nat}
    {A B : List (List (Option Nat))}
    (h : ∀ i j, i < dim → j < dim → idxGet A i j = idxGet B i j) :
    adjEdges m env dim A = adjEdges m env dim B := by
  unfold adjEdges
  apply flatMap_congr_of_mem
  intro i hi
  apply flatMap_congr_of_mem
  intro j hj
  exact cellEdges_congr h (List.mem_range.mp hi) (List.mem_range.mp hj)

theorem teleportEdges_congr {tps : List ChartedCoordinate}
    {A B : List (List (Option Nat))}
    (h : ∀ c ∈ tps, unwrapIdx A c = unwrapIdx B c) :
    teleportEdges tps A = teleportEdges tps B := by
  unfold teleportEdges
  apply flatMap_congr_of_mem
  intro a ha
  apply List.map_congr_left
  intro i hi
  rw [List.mem_range] at ha
  rw [List.mem_range'_1] at hi
  have hmem1 : tps.getD a ⟨0, 0⟩ ∈ tps := by
    rw [List.getD_eq_get? _ _ _, List.get?_eq_get ha]
    exact List.get_mem tps a ha
  have hmem2 : tps.getD (i + 1) ⟨0, 0⟩ ∈ tps := by
    have hi1 : i + 1 < tps.length := by omega
    rw [List.getD_eq_get? _ _ _, List.get?_eq_get hi1]
    exact List.get_mem tps (i + 1) hi1
  rw [h _ hmem1, h _ hmem2]

theorem idxRows_init_length (m : RMap) :
    (idxRows m m.length (List.range m.length) 0).length = m.length := by
  rw [idxRows_length, List.length_range]

theorem init_fresh_indexes (m : RMap) (env : Env) :
    (init ChartedPaths.new m env).indexes =
      idxRows m m.length (List.range m.length) 0 := by
  rw [init_spec]
  rfl

theorem init_twice_indexes (m : RMap) (env : Env) :
    (init (init ChartedPaths.new m env) m env).indexes =
      idxRows m m.length (List.range m.length) 0 ++
        idxRows m m.length (List.range m.length) 0 := by
  rw [init_spec, init_fresh_indexes]

/-- All index reads performed while building the graph stay inside the
first `N` rows, so the stale doubled table yields the same graph. -/
theorem init_twice_graph (m : RMap) (env : Env) :
    (init (init ChartedPaths.new m env) m env).graph =
      (init ChartedPaths.new m env).graph := by
  have h2 := init_spec (init ChartedPaths.new m env) m env
  have h1 := init_spec ChartedPaths.new m env
  rw [h2, init_fresh_indexes]
  rw [h1]
  simp only [ChartedPaths.new, List.nil_append]
  have hA : ∀ i j, i < m.length → j < m.length →
      idxGet (idxRows m m.length (List.range m.length) 0 ++
        idxRows m m.length (List.range m.length) 0) i j =
      idxGet (idxRows m m.length (List.range m.length) 0) i j := by
    intro i j hi hj
    exact idxGet_append_left j (by rw [idxRows_init_length]; exact hi)
  have hT : ∀ c ∈ telsUpTo m m.length (List.range m.length),
      unwrapIdx (idxRows m m.length (List.range m.length) 0 ++
        idxRows m m.length (List.range m.length) 0) c =
      unwrapIdx (idxRows m m.length (List.range m.length) 0) c := by
    intro c hc
    rw [telsUpTo_mem] at hc
    exact unwrapIdx_append_left
      (by rw [idxRows_init_length]; exact List.mem_range.mp hc.1)
  rw [adjEdges_congr hA, teleportEdges_congr hT]

theorem index_to_coordinate_aux_append (B : List (List (Option Nat)))
    (nid : Nat) (A : List (List (Option Nat))) :
    ∀ i, index_to_coordinate_aux (A ++ B) i nid =
      (match index_to_coordinate_aux A i nid with
       | some c => some c
       | none => index_to_coordinate_aux B (i + A.length) nid) := by
  induction A with
  | nil =>
    intro i
    simp [index_to_coordinate_aux]
  | cons row rest ih =>
    intro i
    show index_to_coordinate_aux (row :: (rest ++ B)) i nid = _
    cases hf : row.findIdx? (fun o => o == some nid) with
    | some j =>
      simp [index_to_coordinate_aux, hf]
    | none =>
      have hl : index_to_coordinate_aux (row :: (rest ++ B)) i nid =
          index_to_coordinate_aux (rest ++ B) (i + 1) nid := by
        simp [index_to_coordinate_aux, hf]
      have hr : index_to_coordinate_aux (row :: rest) i nid =
          index_to_coordinate_aux rest (i + 1) nid := by
        simp [index_to_coordinate_aux, hf]
      rw [hl, hr, ih (i + 1)]
      have harith : i + 1 + rest.length = i + (row :: rest).length := by
        simp [List.length_cons]
        omega
      rw [harith]

theorem index_to_coordinate_aux_none (nid : Nat)
    (A : List (List (Option Nat))) :
    ∀ i i2, index_to_coordinate_aux A i nid = none →
      index_to_coordinate_aux A i2 nid = none := by
  induction A with
  | nil => intro i i2 h; rfl
  | cons row rest ih =>
    intro i i2 h
    cases hf : row.findIdx? (fun o => o == some nid) with
    | some j =>
      exfalso
      have : index_to_coordinate_aux (row :: rest) i nid = some ⟨i, j⟩ := by
        simp [index_to_coordinate_aux, hf]
      rw [this] at h
      simp at h
    | none =>
      have hl : index_to_coordinate_aux (row :: rest) i nid =
          index_to_coordinate_aux rest (i + 1) nid := by
        simp [index_to_coordinate_aux, hf]
      have hl2 : index_to_coordinate_aux (row :: rest) i2 nid =
          index_to_coordinate_aux rest (i2 + 1) nid := by
        simp [index_to_coordinate_aux, hf]
      rw [hl] at h
      rw [hl2]
      exact ih (i + 1) (i2 + 1) h

/-- The node-to-coordinate scan gives identical answers on the doubled
table: a hit in the first copy shadows the second, and a miss in the first
copy is a miss in the (identical) second copy too. -/
theorem index_to_coordinate_aux_double (R : List (List (Option Nat)))
    (nid : Nat) :
    index_to_coordinate_aux (R ++ R) 0 nid =
      index_to_coordinate_aux R 0 nid := by
  rw [index_to_coordinate_aux_append R nid R 0]
  cases hs : index_to_coordinate_aux R 0 nid with
  | some c => rfl
  | none => exact index_to_coordinate_aux_none nid R 0 (0 + R.length) hs

/-- Claim C6 (amended): calling `init` a second time with the same square
map snapshot leaves `shortest_path_cost` and `shortest_path` unchanged for
every coordinate pair **within the original `N×N` bounds**.  (The stale,
doubled index table makes coordinates with a component in `[N, 2N)` pass
the bounds check after the second `init`, where they can produce `Some`
results or panics instead of the first `init`'s `None` — see the
counterexample.) -/
theorem c6_double_init (m : RMap) (env : Env) (f t : ChartedCoordinate)
    (h1 : f.r < m.length) (h2 : f.c < m.length) (h3 : t.r < m.length)
    (h4 : t.c < m.length) :
    shortest_path_cost (init (init ChartedPaths.new m env) m env) f t =
      shortest_path_cost (init ChartedPaths.new m env) f t ∧
    shortest_path (init (init ChartedPaths.new m env) m env) f t =
      shortest_path (init ChartedPaths.new m env) f t := by
  have hRlen := idxRows_init_length m
  have hidx1 := init_fresh_indexes m env
  have hidx2 := init_twice_indexes m env
  have hg := init_twice_graph m env
  have hb1 : check_boundaries (init ChartedPaths.new m env) f t = true := by
    unfold check_boundaries
    rw [hidx1, hRlen]
    rw [if_neg (by push_neg; exact ⟨by omega, by omega, by omega, by omega⟩)]
  have hb2 : check_boundaries (init (init ChartedPaths.new m env) m env) f t =
      true := by
    unfold check_boundaries
    rw [hidx2, List.length_append, hRlen]
    rw [if_neg (by push_neg; exact ⟨by omega, by omega, by omega, by omega⟩)]
  have hEf : idxGetE (init (init ChartedPaths.new m env) m env).indexes
      f.r f.c = idxGetE (init ChartedPaths.new m env).indexes f.r f.c := by
    rw [hidx1, hidx2, idxGetE_append_left f.c (by rw [hRlen]; exact h1)]
  have hEt : idxGetE (init (init ChartedPaths.new m env) m env).indexes
      t.r t.c = idxGetE (init ChartedPaths.new m env).indexes t.r t.c := by
    rw [hidx1, hidx2, idxGetE_append_left t.c (by rw [hRlen]; exact h3)]
  have hEs : idxGetE (init (init ChartedPaths.new m env) m env).indexes 0 4 =
      idxGetE (init ChartedPaths.new m env).indexes 0 4 := by
    rw [hidx1, hidx2, idxGetE_append_left 4 (by rw [hRlen]; omega)]
  have hic : index_to_coordinate (init (init ChartedPaths.new m env) m env) =
      index_to_coordinate (init ChartedPaths.new m env) := by
    funext nid
    unfold index_to_coordinate
    rw [hidx1, hidx2]
    exact index_to_coordinate_aux_double _ nid
  constructor
  · unfold shortest_path_cost
    rw [hb1, hb2, if_neg (by decide), if_neg (by decide), hEf, hEt, hEs, hg]
  · unfold shortest_path
    rw [hb1, hb2, if_neg (by decide), if_neg (by decide), hEf, hEt, hg, hic]

/-- Witness for C6's amended theorem on the 5×5 row map at in-bounds
coordinates. -/
theorem c6_double_init_witness :
    shortest_path_cost
        (init (init ChartedPaths.new mapRow5 envConst1) mapRow5 envConst1)
        ⟨0, 0⟩ ⟨0, 3⟩ =
      shortest_path_cost (init ChartedPaths.new mapRow5 envConst1)
        ⟨0, 0⟩ ⟨0, 3⟩ ∧
    shortest_path
        (init (init ChartedPaths.new mapRow5 envConst1) mapRow5 envConst1)
        ⟨0, 0⟩ ⟨0, 3⟩ =
      shortest_path (init ChartedPaths.new mapRow5 envConst1) ⟨0, 0⟩ ⟨0, 3⟩ :=
  c6_double_init mapRow5 envConst1 ⟨0, 0⟩ ⟨0, 3⟩ (by decide) (by decide)
    (by decide) (by decide)

end ChartingTools
